import Mathlib

/-!
Tridion page controller (`src/inject.js`)

A shallow embedding of the class `TridionRobotExtension`: the shared progress
record with the fake timer, the result handling of the send pipeline, the
form-body encoding and the overlay construction, followed by the properties
proved about them.

Conventions of the embedding.

* JavaScript numbers are exact rationals (`ℚ`); `progress.iteration` only ever
  holds a natural number (`0`, then `++`) and is a `Nat`.
* A DOM reference is `Option Nat`: `none` is `null`, `some i` names the node
  `i` of the store. Dereferencing `null` throws a `TypeError`; a function that
  can throw returns an `Outcome`, the state reached together with a flag
  telling whether an exception ended the call.
* `Math.random()` is an input: the value it returns in a call is the argument
  `r` of that call.
* The progress code writes three properties of the nodes it holds references
  to (class list, text, width) and is modelled on a store of such nodes; the
  construction of the overlays and `prepareData` work on the tree of the page
  (section "The page").
-/

namespace Tridion

/-! ## Constants of the constructor -/

/-- The class names of `this.selectors`. -/
structure Selectors where
  tridion : String := "[data-tridion]"
  btn : String := "tridion__btn"
  info : String := "tridion__info"
  overlay : String := "tridion__overlay"
  overlayCopied : String := "tridion__overlay--copied"
  overlayActive : String := "tridion__overlay--active"
  overlaySendingData : String := "tridion__overlay--sending"
  overlayNotification : String := "tridion__overlay--notification"
  overlaySuccess : String := "tridion__overlay--success"
  overlayFailure : String := "tridion__overlay--failure"
  counter : String := "tridion__counter"
  loader : String := "tridion__loader"
  line : String := "tridion__line"
  tmp : String := "tridion__tmp"

/-- The value of `this.selectors`. -/
def selectors : Selectors := {}

/-- The strings of `this.messages`. -/
structure Messages where
  success : String := "SUCCESS"
  failure : String := "FAILED"
  copy : String := "COPIED"
  button : String := "T"

/-- The value of `this.messages`. -/
def messages : Messages := {}

/-! ## JSON values and truthiness -/

/-- A number as `JSON.parse` can return it: a finite value or an infinity
(literals beyond the double range); never `NaN`. -/
inductive JSNumber where
  | finite (q : ℚ)
  | posInf
  | negInf

/-- A value returned by `response.json()`. -/
inductive JSValue where
  | null
  | bool (b : Bool)
  | number (n : JSNumber)
  | string (s : String)
  | array (items : List JSValue)
  | object (fields : List (String × JSValue))

/-- The abstract operation `ToBoolean` on a value that may be `undefined`
(`none`). -/
def truthy : Option JSValue → Bool
  | none => false
  | some .null => false
  | some (.bool b) => b
  | some (.number (.finite q)) => decide (q ≠ 0)
  | some (.number _) => true
  | some (.string s) => decide (s ≠ "")
  | some (.array _) => true
  | some (.object _) => true

/-- Reading `data.success`: `none` at the outer level is the `TypeError` of
reading a property of `null`; `some none` is `undefined` (a missing property,
or a primitive or an array, none of which has a `success` property). -/
def getSuccess : JSValue → Option (Option JSValue)
  | .null => none
  | .object fields => some (fields.lookup "success")
  | _ => some none

/-! ## The progress record and the nodes it refers to -/

/-- What the progress code touches of a DOM node: its class list, its text
content and the `width` of its inline style. -/
structure Elem where
  classList : List String := []
  textContent : String := ""
  styleWidth : String := ""

/-- The record `this.progress`; `overlayState` is the property that
`updateElementState` adds to it. -/
structure Progress where
  overlay : Option Nat := none
  elementState : Option String := none
  loader : Option Nat := none
  counter : Option Nat := none
  status : Bool := false
  iteration : Nat := 0
  loaded : ℚ := 0
  overlayState : Option String := none

/-- The controller object together with the nodes of the page. -/
structure State where
  progress : Progress := {}
  dom : Nat → Elem := fun _ => {}

/-- The state a call ends in, and whether it ended by throwing. -/
structure Outcome where
  state : State
  threw : Bool := false

/-- Normal completion. -/
def Outcome.ok (s : State) : Outcome := ⟨s, false⟩

/-- Abrupt completion: a `TypeError`, with the writes made so far kept. -/
def Outcome.throw (s : State) : Outcome := ⟨s, true⟩

/-- Sequencing of statements: nothing runs after a throw. -/
def Outcome.andThen (o : Outcome) (f : State → Outcome) : Outcome :=
  if o.threw then o else f o.state

/-- Update of one node of the store. -/
def State.modifyNode (s : State) (i : Nat) (f : Elem → Elem) : State :=
  { s with dom := fun j => if j = i then f (s.dom i) else s.dom j }

/-- The method `classList.add(token)` on the token set of a node. -/
def classListAdd (tokens : List String) (token : String) : List String :=
  if token ∈ tokens then tokens else tokens ++ [token]

/-- The statement `ref.textContent = text`. -/
def setTextContent (ref : Option Nat) (text : String) (s : State) : Outcome :=
  match ref with
  | none => .throw s
  | some i => .ok (s.modifyNode i fun e => { e with textContent := text })

/-- The statement `ref.style.width = w`. -/
def setStyleWidth (ref : Option Nat) (w : String) (s : State) : Outcome :=
  match ref with
  | none => .throw s
  | some i => .ok (s.modifyNode i fun e => { e with styleWidth := w })

/-- The method `updateElementState(node, state)`. -/
def updateElementState (node : Option Nat) (state : String) (s : State) : Outcome :=
  match node with
  | none => .throw s
  | some i =>
    let s1 := s.modifyNode i fun e => { e with classList := classListAdd e.classList state }
    .ok { s1 with progress := { s1.progress with overlayState := some state } }

/-- The method `determineResults(data)`. -/
def determineResults (data : JSValue) (s : State) : Outcome :=
  match getSuccess data with
  | none => .throw s
  | some success =>
    if truthy success then
      let s1 : State := { s with progress := { s.progress with status := false } }
      (setTextContent s1.progress.counter messages.success s1).andThen fun s2 =>
        updateElementState s2.progress.overlay selectors.overlaySuccess s2
    else
      let s1 : State := { s with progress := { s.progress with status := false } }
      (setTextContent s1.progress.counter messages.failure s1).andThen fun s2 =>
        updateElementState s2.progress.overlay selectors.overlayFailure s2

/-! ## `Number.prototype.toPrecision` -/

/-- The decimal digit `d` as a character. -/
def digitChar (d : Nat) : Char := Char.ofNat (48 + d % 10)

/-- The `p` decimal digits of `n`, most significant first. -/
def fixedDigits (p n : Nat) : List Char :=
  (List.range p).map fun i => digitChar (n / 10 ^ (p - 1 - i))

/-- The decimal digits of `n` without leading zeros (`fuel` bounds their number). -/
def natDigits : Nat → Nat → List Char
  | 0, n => [digitChar n]
  | fuel + 1, n => if n < 10 then [digitChar n] else natDigits fuel (n / 10) ++ [digitChar n]

/-- The largest `e` with `10 ^ e * b ≤ a`, searched upwards (`b ≤ a`). -/
def expUp : Nat → Nat → Nat → Nat
  | 0, _, _ => 0
  | fuel + 1, a, b => if 10 * b ≤ a then expUp fuel a (10 * b) + 1 else 0

/-- The smallest `k` with `b ≤ a * 10 ^ k`, searched upwards (`0 < a`). -/
def expDown : Nat → Nat → Nat → Nat
  | 0, _, _ => 0
  | fuel + 1, a, b => if b ≤ a then 0 else expDown fuel (10 * a) b + 1

/-- The decimal exponent `e` of the positive rational `a / b`:
`10 ^ e ≤ a / b < 10 ^ (e + 1)`. -/
def decimalExponent (a b : Nat) : Int :=
  if b ≤ a then (expUp a a b : Int) else - (expDown b a b : Int)

/-- The integer nearest to `a / b * 10 ^ (p - 1 - e)`, the larger one on a tie. -/
def scaledDigits (p : Nat) (a b : Nat) (e : Int) : Nat :=
  let k : Int := (p : Int) - 1 - e
  if 0 ≤ k then (2 * a * 10 ^ k.toNat + b) / (2 * b)
  else (2 * a + b * 10 ^ (-k).toNat) / (2 * b * 10 ^ (-k).toNat)

/-- The text of `x.toPrecision(p)` for a positive `x = a / b`, after the
choice of `e` and `n` (`10 ^ (p - 1) ≤ n < 10 ^ p`). -/
def formatPrecision (p : Nat) (n : Nat) (e : Int) : List Char :=
  let m := fixedDigits p n
  if e < -6 ∨ (p : Int) ≤ e then
    let mant := if p = 1 then m else m.take 1 ++ [Char.ofNat 46] ++ m.drop 1
    mant ++ [Char.ofNat 101, if 0 ≤ e then Char.ofNat 43 else Char.ofNat 45]
      ++ natDigits e.natAbs e.natAbs
  else if e = (p : Int) - 1 then m
  else if 0 ≤ e then m.take (e.toNat + 1) ++ [Char.ofNat 46] ++ m.drop (e.toNat + 1)
  else [Char.ofNat 48, Char.ofNat 46] ++ List.replicate (-(e + 1)).toNat (Char.ofNat 48) ++ m

/-- The text of `x.toPrecision(p)` for `x = ± a / b`, with `negative` telling
whether `x < 0`. -/
def toPrecisionFrac (p : Nat) (negative : Bool) (a b : Nat) : String :=
  let body : List Char :=
    if a = 0 then
      if p = 1 then [Char.ofNat 48]
      else [Char.ofNat 48, Char.ofNat 46] ++ List.replicate (p - 1) (Char.ofNat 48)
    else
      let e := decimalExponent a b
      let n := scaledDigits p a b e
      if n = 10 ^ p then formatPrecision p (10 ^ (p - 1)) (e + 1) else formatPrecision p n e
  String.mk (if negative then Char.ofNat 45 :: body else body)

/-- The method `x.toPrecision(p)` of a number `x` (for `1 ≤ p ≤ 100`). -/
def toPrecision (p : Nat) (x : ℚ) : String :=
  toPrecisionFrac p (decide (x < 0)) x.num.natAbs x.den

/-! ## The fake timer -/

/-- The `else` branch of `displayCounter`, run when `done` is true. -/
def displayCounterDone (s : State) : Outcome :=
  (setStyleWidth s.progress.loader "100%" s).andThen fun s1 =>
    .ok { s1 with progress := { s1.progress with iteration := 0, loaded := 0 } }

/-- The statements of `displayCounter` that follow the test of the iteration
cap in its non-done branch: the update of `progress.loaded` and the two writes
of the percentage; `r` is what `Math.random()` returns if it is called. -/
def displayCounterTick (r : ℚ) (s1 : State) : Outcome :=
  let s2 : State :=
    if s1.progress.iteration < 75 then
      { s1 with progress := { s1.progress with loaded := s1.progress.loaded + r } }
    else
      { s1 with progress :=
          { s1.progress with loaded := 100 - 50 * (75 / (s1.progress.iteration : ℚ)) } }
  (setStyleWidth s2.progress.loader (toPrecision 4 s2.progress.loaded ++ "%") s2).andThen
    fun s3 =>
      setTextContent s3.progress.counter
        ("In Progress " ++ toPrecision 4 s3.progress.loaded ++ "%") s3

/-- The method `displayCounter(done)`; a missing argument is `done = false`,
and the inner call `this.displayCounter(true)` is `displayCounterDone`. -/
def displayCounter (done : Bool) (r : ℚ) (s : State) : Outcome :=
  if !done then
    (if s.progress.iteration > 400 then displayCounterDone s else .ok s).andThen
      (displayCounterTick r)
  else displayCounterDone s

/-- What one call of `timer` did: the state reached, the `done` arguments of
the calls of `callback` in order, the delays of the `setTimeout` calls that
re-arm `timer(callback)`, and whether the call ended by throwing. -/
structure TimerOutcome where
  state : State
  calls : List Bool := []
  scheduled : List Nat := []
  threw : Bool := false

/-- The method `timer(callback)`; `callback = none` is a value that is not a
function. -/
def timer (callback : Option (Bool → State → Outcome)) (s : State) : TimerOutcome :=
  if s.progress.status then
    let s1 : State := { s with progress := { s.progress with iteration := s.progress.iteration + 1 } }
    match callback with
    | some f =>
      let o := f false s1
      if o.threw then { state := o.state, calls := [false], threw := true }
      else { state := o.state, calls := [false], scheduled := [200] }
    | none => { state := s1, scheduled := [200] }
  else
    match callback with
    | some f =>
      let o := f true s
      { state := o.state, calls := [true], threw := o.threw }
    | none => { state := s, threw := true }

/-- The method `startOverlayTimer(node)`. -/
def startOverlayTimer (r : ℚ) (s : State) : TimerOutcome :=
  let s1 : State := { s with progress := { s.progress with status := true } }
  timer (some fun done => displayCounter done r) s1

/-- The loop that `timer` keeps alive: each element of the list is the value of
`Math.random()` for one call of `timer(displayCounter)`; the next call runs
only if the previous one re-armed the timeout. -/
def runTimer : List ℚ → State → State
  | [], s => s
  | r :: rs, s =>
    let o := timer (some fun done => displayCounter done r) s
    if o.scheduled = [] then o.state else runTimer rs o.state

/-- A progress state that tracks node `0` as overlay, node `1` as loader and
node `2` as counter, in progress at the given iteration. -/
def trackedState (iteration : Nat) (loaded : ℚ) : State :=
  { progress :=
      { overlay := some 0, loader := some 1, counter := some 2, status := true,
        iteration := iteration, loaded := loaded } }

/-! ## Form-body encoding -/

/-- The characters `encodeURIComponent` leaves as they are: letters, digits
and the marks `- _ . ! ~ * ' ( )`. -/
def isUnreserved (c : Char) : Bool :=
  let n := c.toNat
  (65 ≤ n ∧ n ≤ 90) ∨ (97 ≤ n ∧ n ≤ 122) ∨ (48 ≤ n ∧ n ≤ 57) ∨
    n ∈ [45, 95, 46, 33, 126, 42, 39, 40, 41]

/-- The upper-case hexadecimal digit of `n`. -/
def hexChar (n : Nat) : Char :=
  if n % 16 < 10 then Char.ofNat (48 + n % 16) else Char.ofNat (55 + n % 16)

/-- The escape `%XX` of one byte. -/
def percentByte (b : Nat) : List Char := ['%', hexChar (b / 16), hexChar b]

/-- The UTF-8 encoding of a code point. -/
def utf8Bytes (c : Char) : List Nat :=
  let n := c.toNat
  if n < 128 then [n]
  else if n < 2048 then [192 + n / 64, 128 + n % 64]
  else if n < 65536 then [224 + n / 4096, 128 + n / 64 % 64, 128 + n % 64]
  else [240 + n / 262144, 128 + n / 4096 % 64, 128 + n / 64 % 64, 128 + n % 64]

/-- The function `encodeURIComponent` on a string of code points. -/
def encodeURIComponent (s : List Char) : List Char :=
  s.flatMap fun c => if isUnreserved c then [c] else (utf8Bytes c).flatMap percentByte

/-- The number of consecutive copies of the three characters `a b c` at the
start of a string: the greedy match of `(abc)*`. -/
def countReps (a b c : Char) : List Char → Nat
  | x :: y :: z :: rest => if x = a ∧ y = b ∧ z = c then countReps a b c rest + 1 else 0
  | _ => 0

/-- The method `replace(/(abc){least,}/g, repl)` as a scan from the left: at a
position where at least `least` copies of `abc` start, the longest run of
copies is replaced by `repl` and the scan goes on behind it; elsewhere one
character is copied (`1 ≤ least`). `skip` counts the characters of a replaced
run still to pass over. -/
def replaceRuns (a b c : Char) (least : Nat) (repl : List Char) : Nat → List Char → List Char
  | _, [] => []
  | skip + 1, _ :: rest => replaceRuns a b c least repl skip rest
  | 0, x :: rest =>
    let k := countReps a b c (x :: rest)
    if least ≤ k then repl ++ replaceRuns a b c least repl (3 * k - 1) rest
    else x :: replaceRuns a b c least repl 0 rest

/-- The call `.replace(/(%20){2,}/g, "%20")`. -/
def collapseSpaces (s : List Char) : List Char :=
  replaceRuns '%' '2' '0' 2 ['%', '2', '0'] 0 s

/-- The call `.replace(/(%09){1,}/g, "%20")`. -/
def replaceTabs (s : List Char) : List Char :=
  replaceRuns '%' '0' '9' 1 ['%', '2', '0'] 0 s

/-- The request that `postData` hands to `fetch`. -/
structure Request where
  url : String
  method : String
  body : String
  headers : List (String × String)

/-- The string `data` built in `postData`. -/
def formBody (data : String) : String :=
  "source=" ++ String.mk (replaceTabs (collapseSpaces (encodeURIComponent data.toList)))

/-- The method `postData()`, up to the call of `fetch`, with `this.server` and
`this.data` as arguments. -/
def postData (server data : String) : Request :=
  { url := server, method := "post", body := formBody data,
    headers := [("content-type", "application/x-www-form-urlencoded"),
      ("cache-control", "no-cache")] }

/-- A run of `n` encoded tabs, `%09` repeated. -/
def tabRun : Nat → List Char
  | 0 => []
  | n + 1 => '%' :: '0' :: '9' :: tabRun n

/-! ## The page

The document is a tree of nodes; an element of it is named by its path from
the root, the list of child indices to follow. `cloneNode(true)` is the
identity on such a value. Event handlers (`onclick`, `onmouseover`,
`onmouseout`) are properties of the objects, not part of the tree or of its
markup, and are left out. Three functions of the browser are parameters:
`restyle` (the text of a `style` attribute after `style.position = "relative"`
on an element that already has one), `fixed` (whether the computed position of
the element at a path is `fixed`) and `parseFragment` (the HTML parser behind
`innerHTML`). -/

/-- A node of the document. -/
inductive Node where
  | text (data : String)
  | comment (data : String)
  | element (tag : String) (attrs : List (String × String)) (children : List Node)

/-- The attributes of a node, in order. -/
def Node.attrs : Node → List (String × String)
  | .element _ a _ => a
  | _ => []

/-- The children of a node. -/
def Node.children : Node → List Node
  | .element _ _ cs => cs
  | _ => []

/-- The method `getAttribute(name)`. -/
def Node.getAttribute (n : Node) (name : String) : Option String :=
  n.attrs.lookup name

/-- Attribute list after `setAttribute(name, value)`: the value is replaced in
place, a new attribute goes to the end. -/
def setAttr (name value : String) : List (String × String) → List (String × String)
  | [] => [(name, value)]
  | (k, v) :: rest => if k = name then (k, value) :: rest else (k, v) :: setAttr name value rest

/-- The method `setAttribute(name, value)`. -/
def Node.setAttribute (name value : String) : Node → Node
  | .element t a cs => .element t (setAttr name value a) cs
  | n => n

/-- ASCII whitespace: tab, line feed, form feed, carriage return, space. -/
def isAsciiWhitespace (c : Char) : Bool :=
  c.toNat ∈ [9, 10, 12, 13, 32]

/-- Splitting on ASCII whitespace; `cur` is the token being read. -/
def splitTokens : List Char → List Char → List (List Char)
  | [], cur => if cur = [] then [] else [cur]
  | c :: cs, cur =>
    if isAsciiWhitespace c then
      if cur = [] then splitTokens cs [] else cur :: splitTokens cs []
    else splitTokens cs (cur ++ [c])

/-- The ordered set of tokens of an attribute value. -/
def parseTokenSet (value : String) : List String :=
  ((splitTokens value.toList []).map String.mk).foldl classListAdd []

/-- The tokens joined by single spaces. -/
def joinTokens : List (List Char) → List Char
  | [] => []
  | [a] => a
  | a :: b :: rest => a ++ ' ' :: joinTokens (b :: rest)

/-- The ordered-set serializer. -/
def serializeTokenSet (tokens : List String) : String :=
  String.mk (joinTokens (tokens.map String.toList))

/-- A token of a class list: not empty and free of whitespace. -/
def ValidToken (tok : List Char) : Prop :=
  tok ≠ [] ∧ ∀ c ∈ tok, isAsciiWhitespace c = false

/-- A token set: tokens that are valid and pairwise different. -/
def ValidTokenSet (tokens : List String) : Prop :=
  tokens.Nodup ∧ ∀ t ∈ tokens, ValidToken t.toList

/-- The token set behind `classList`. -/
def Node.classTokens (n : Node) : List String :=
  match n.getAttribute "class" with
  | some v => parseTokenSet v
  | none => []

/-- Whether an element carries the class: what `getElementsByClassName` and a
class selector test. -/
def Node.hasClass (cls : String) : Node → Bool
  | .element t a cs => decide (cls ∈ (Node.element t a cs).classTokens)
  | _ => false

/-- The method `classList.add(token)` on an element. -/
def Node.classListAdd (token : String) : Node → Node
  | .element t a cs =>
    let tokens := Tridion.classListAdd (Node.element t a cs).classTokens token
    .element t (setAttr "class" (serializeTokenSet tokens) a) cs
  | n => n

/-- The method `classList.remove(token)` on an element: without a `class`
attribute and with nothing left in the set, no attribute is written. -/
def Node.classListRemove (token : String) : Node → Node
  | .element t a cs =>
    let tokens := (Node.element t a cs).classTokens.filter fun x => x ≠ token
    if a.lookup "class" = none ∧ tokens = [] then .element t a cs
    else .element t (setAttr "class" (serializeTokenSet tokens) a) cs
  | n => n

/-- The method `appendChild(child)` with a node that is not yet in the tree. -/
def Node.appendChild : Node → Node → Node
  | .element t a cs, child => .element t a (cs ++ [child])
  | n, _ => n

/-- The node at a path. -/
def nodeAt : List Nat → Node → Option Node
  | [], n => some n
  | i :: p, .element _ _ cs => cs[i]?.bind (nodeAt p)
  | _ :: _, _ => none

/-- The tree after `f` has changed the node at a path; a path that leads
nowhere changes nothing. -/
def modifyAt (f : Node → Node) : List Nat → Node → Node
  | [], n => f n
  | i :: p, .element t a cs => .element t a (cs.modify (modifyAt f p) i)
  | _ :: _, n => n

/-- A sequence of changes, each made to the node at a path. -/
def applyEdits (edits : List (List Nat × (Node → Node))) (root : Node) : Node :=
  edits.foldl (fun r e => modifyAt e.2 e.1 r) root

/-- The part of a path below the path `p`, when it passes through `p`. -/
def stripPrefix (p q : List Nat) : Option (List Nat) :=
  if p <+: q then some (q.drop p.length) else none

/-- An edit that keeps the tag of an element and the children it has, in
place: it may change attributes and add children at the end. -/
def KeepsChildren (f : Node → Node) : Prop :=
  ∀ t a cs, ∃ a' extra, f (.element t a cs) = .element t a' (cs ++ extra)

/-- An edit of the attributes of an element: the tag and the children stay,
and the new attributes do not depend on the children. -/
def AttrsOnly (f : Node → Node) : Prop :=
  ∀ t a cs, f (.element t a cs) = .element t (f (.element t a [])).attrs cs

/-- The edits of a sequence that fall below `p`, with their paths taken from
`p`. -/
def editsBelow (p : List Nat) (edits : List (List Nat × (Node → Node))) :
    List (List Nat × (Node → Node)) :=
  edits.filterMap fun e => (stripPrefix p e.1).map fun r => (r, e.2)

/-- A loop `for (let elm of data) body(elm)` whose body changes the element it
is given; the body is told the path of the element. -/
def forEachAt (body : List Nat → Node → Node) (data : List (List Nat)) (root : Node) : Node :=
  data.foldl (fun r p => modifyAt (body p) p r) root

mutual
/-- The paths of the elements of a tree that match, in tree order: the result
of `querySelectorAll`, the root included. -/
def querySelectorAll (sel : Node → Bool) : Node → List (List Nat)
  | .element t a cs =>
    (if sel (.element t a cs) then [[]] else []) ++ querySelectorAllFrom sel 0 cs
  | _ => []
/-- The matches in the children of an element, the first of them with index
`i`. -/
def querySelectorAllFrom (sel : Node → Bool) : Nat → List Node → List (List Nat)
  | _, [] => []
  | i, c :: cs =>
    (querySelectorAll sel c).map (fun p => i :: p) ++ querySelectorAllFrom sel (i + 1) cs
end

/-- The number of elements in and below the nodes of a list that carry the
class. -/
def countInNodes (cls : String) (nodes : List Node) : Nat :=
  (querySelectorAllFrom (Node.hasClass cls) 0 nodes).length

/-- The number of elements below `n` that carry the class: the length of
`n.querySelectorAll("." + cls)`. -/
def countByClass (cls : String) (n : Node) : Nat :=
  countInNodes cls n.children

/-- The selector `[data-tridion]`. -/
def isTridion (n : Node) : Bool :=
  (n.getAttribute "data-tridion").isSome

/-- The document: its root element and the path of `document.body`. -/
structure Page where
  root : Node
  body : List Nat

/-- The conversion of a possibly `undefined` string in a template. -/
def jsString : Option String → String
  | some s => s
  | none => "undefined"

/-- The children after `textContent = s`. -/
def textChildren (s : String) : List Node :=
  if s = "" then [] else [.text s]

/-! ## Construction of the overlay -/

/-- The method `createtBtn()`. -/
def createtBtn : Node :=
  .element "div" [("class", selectors.btn)] (textChildren messages.button)

/-- The method `createLines()`. -/
def createLines : List Node :=
  (List.range 4).map fun i =>
    .element "div"
      [("class", selectors.line ++ " " ++ selectors.line ++ "--" ++ String.mk (natDigits i i))] []

/-- The method `createInfoDiv()`. -/
def createInfoDiv : Node :=
  .element "div" [("class", selectors.info)] []

/-- The method `createLink(id)`. -/
def createLink (id : Option String) : Node :=
  .element "a"
    [("href", "http://www.epublishmerck.com/WebUI/item.aspx?tcm=16#id=tcm:" ++ jsString id),
      ("target", "_blank")]
    (textChildren ("COPY: " ++ jsString id))

/-- The method `createNotificationOverlay(text)`. -/
def createNotificationOverlay (text : String) : Node :=
  .element "div" [("class", selectors.overlayNotification)] (textChildren text)

/-- The method `createtOverlay()`. -/
def createtOverlay : Node :=
  .element "div" [("class", selectors.overlay)]
    (createLines ++
      [createNotificationOverlay "COPIED",
        .element "div" [("class", selectors.loader)] [],
        .element "div" [("class", selectors.counter)] []])

/-- The value of `a || b` for a possibly `undefined` string `a`. -/
def orElse (a : Option String) (b : String) : String :=
  match a with
  | some s => if s = "" then b else s
  | none => b

/-- The markup assigned to `innerHTML` in `updateElementInfo`. -/
def infoMarkup (elm : Node) : String :=
  "Name: " ++ orElse (elm.getAttribute "data-name") "Not sure" ++ "<br>Scope: "
    ++ orElse (elm.getAttribute "data-scope") "Who knows" ++ "<br>"

/-- The method `updateElementInfo(node, elm)`: the info node it leaves. -/
def updateElementInfo (parseFragment : String → List Node) (node elm : Node) : Node :=
  match node with
  | .element t a _ =>
    (Node.element t a (parseFragment (infoMarkup elm))).appendChild
      (createLink (elm.getAttribute "data-tridion"))
  | n => n

/-- The overlay that the body of the loop of `showTridionElements` builds for
`elm`. -/
def buildOverlay (parseFragment : String → List Node) (elm : Node) : Node :=
  (createtOverlay.appendChild (updateElementInfo parseFragment createInfoDiv elm)).appendChild
    createtBtn

/-- The hidden textarea of `showTridionElements`. -/
def createTmp : Node :=
  .element "textarea" [("id", selectors.tmp)] []

/-- The method `showTridionElements(data)`. -/
def showTridionElements (parseFragment : String → List Node) (data : List (List Nat))
    (page : Page) : Page :=
  { page with
    root := forEachAt (fun _ elm => elm.appendChild (buildOverlay parseFragment elm)) data
      (modifyAt (fun body => body.appendChild createTmp) page.body page.root) }

/-- The statement `elm.style.position = "relative"`. -/
def setPositionRelative (restyle : String → String) (elm : Node) : Node :=
  match elm.getAttribute "style" with
  | none => elm.setAttribute "style" "position: relative;"
  | some old => elm.setAttribute "style" (restyle old)

/-- The method `findTridionElements()`: the page it leaves and the collection
it returns. -/
def findTridionElements (restyle : String → String) (fixed : List Nat → Bool) (page : Page) :
    Page × List (List Nat) :=
  let tridions := querySelectorAll isTridion page.root
  ({ page with
      root := forEachAt (fun p elm => if fixed p then elm else setPositionRelative restyle elm)
        tridions page.root },
    tridions)

/-- The method `displayAllBtns()`. -/
def displayAllBtns (restyle : String → String) (fixed : List Nat → Bool)
    (parseFragment : String → List Node) (page : Page) : Page :=
  let found := findTridionElements restyle fixed page
  showTridionElements parseFragment found.2 found.1

/-! ## Serialization and `prepareData` -/

/-- Escaping of a string in the HTML serialization. -/
def escapeHTML (attributeMode : Bool) (s : List Char) : List Char :=
  s.flatMap fun c =>
    if c = '&' then "&amp;".toList
    else if c.toNat = 160 then "&nbsp;".toList
    else if attributeMode then (if c = '"' then "&quot;".toList else [c])
    else if c = '<' then "&lt;".toList
    else if c = '>' then "&gt;".toList
    else [c]

/-- The elements without end tag and content. -/
def voidElements : List String :=
  ["area", "base", "basefont", "bgsound", "br", "col", "embed", "frame", "hr", "img", "input",
    "keygen", "link", "meta", "param", "source", "track", "wbr"]

/-- The elements whose text is written without escaping. -/
def rawTextElements : List String :=
  ["style", "script", "xmp", "iframe", "noembed", "noframes", "plaintext", "noscript"]

/-- The attributes of a start tag. -/
def serializeAttrs (attrs : List (String × String)) : List Char :=
  attrs.flatMap fun kv => ' ' :: kv.1.toList ++ '=' :: '"' :: escapeHTML true kv.2.toList ++ ['"']

mutual
/-- The HTML serialization of a node whose parent has tag `parent`. -/
def serializeNode (parent : String) : Node → List Char
  | .text d => if parent ∈ rawTextElements then d.toList else escapeHTML false d.toList
  | .comment d => "<!--".toList ++ d.toList ++ "-->".toList
  | .element t a cs =>
    '<' :: t.toList ++ serializeAttrs a ++ '>' ::
      (if t ∈ voidElements then [] else serializeNodes t cs ++ '<' :: '/' :: t.toList ++ ['>'])
/-- The HTML serialization of a list of children. -/
def serializeNodes (parent : String) : List Node → List Char
  | [] => []
  | c :: cs => serializeNode parent c ++ serializeNodes parent cs
end

/-- The property `outerHTML` of an element. -/
def outerHTML (n : Node) : String :=
  String.mk (serializeNode "" n)

mutual
/-- The children after `getElementsByClassName(cls)[0].remove()`: the first
descendant in tree order that carries the class is taken out; `none` when
there is none. -/
def removeFirstByClass (cls : String) : List Node → Option (List Node)
  | [] => none
  | c :: cs =>
    if c.hasClass cls then some cs
    else
      match removeFirstInside cls c with
      | some c' => some (c' :: cs)
      | none => (removeFirstByClass cls cs).map fun cs' => c :: cs'
/-- The same below one node. -/
def removeFirstInside (cls : String) : Node → Option Node
  | .element t a cs => (removeFirstByClass cls cs).map fun cs' => .element t a cs'
  | _ => none
end

/-- The three calls of `classList.remove` in `prepareData`. -/
def removeStateClasses (node : Node) : Node :=
  ((node.classListRemove selectors.overlaySendingData).classListRemove
    selectors.overlayActive).classListRemove selectors.overlayCopied

/-- The element after `updateElementState(elm, state)` for each state of a
list: the class is added to it. -/
def markElement (states : List String) (elm : Node) : Node :=
  states.foldl (fun n state => n.classListAdd state) elm

/-- What `prepareData` stores in `this.server` and `this.data`. -/
structure Prepared where
  server : String
  data : String

/-- The method `prepareData(node)`; `none` is the `TypeError` of calling
`remove` on `undefined` when the clone holds no overlay. -/
def prepareData (node : Node) : Option Prepared :=
  match node with
  | .element t a cs =>
    match removeFirstByClass selectors.overlay cs with
    | none => none
    | some cs' =>
      let clearNode := removeStateClasses (.element t a cs')
      some
        { server := "//localhost:3000/update-component/tcm:"
            ++ jsString (clearNode.getAttribute "data-tridion"),
          data := outerHTML clearNode }
  | _ => none

/-- A page with one flagged element: `<div data-tridion="1">hello</div>` as the
only child of the body. -/
def samplePage : Page :=
  { root := .element "body" []
      [.element "div" [("data-tridion", "1")] [.text "hello"]],
    body := [] }

/-- A page whose flagged element carries markup in its `data-name`:
`<div data-tridion="1" data-name="<i class=&quot;tridion__btn&quot;></i>"></div>`
as the only child of the body. -/
def injectedPage : Page :=
  { root := .element "body" []
      [.element "div" [("data-tridion", "1"), ("data-name", "<i class=\"tridion__btn\"></i>")] []],
    body := [] }

/-- The HTML fragment parser on the markup that `updateElementInfo` builds for
the element of `injectedPage`; the value on other strings is not used. -/
def injectedParser (markup : String) : List Node :=
  if markup = "Name: <i class=\"tridion__btn\"></i><br>Scope: Who knows<br>" then
    [.text "Name: ", .element "i" [("class", "tridion__btn")] [], .element "br" [] [],
      .text "Scope: Who knows", .element "br" [] []]
  else [.text markup]

/-- A page with a flagged element inside a flagged element:
`<div data-tridion="1"><span data-tridion="2">x</span></div>` as the only
child of the body. -/
def nestedPage : Page :=
  { root := .element "body" []
      [.element "div" [("data-tridion", "1")]
        [.element "span" [("data-tridion", "2")] [.text "x"]]],
    body := [] }

/-- The state the constructor leaves, once `startOverlayTimer` has set the
flag: no send has stored references to an overlay, a loader or a counter. -/
def unsentState : State :=
  { progress := { status := true } }

/-! # Properties -/

/-! ## Completions and the node store -/

@[simp] theorem andThen_ok (s : State) (f : State → Outcome) :
    (Outcome.ok s).andThen f = f s := rfl

@[simp] theorem andThen_throw (s : State) (f : State → Outcome) :
    (Outcome.throw s).andThen f = Outcome.throw s := rfl

@[simp] theorem ok_state (s : State) : (Outcome.ok s).state = s := rfl

@[simp] theorem ok_threw (s : State) : (Outcome.ok s).threw = false := rfl

@[simp] theorem throw_state (s : State) : (Outcome.throw s).state = s := rfl

@[simp] theorem throw_threw (s : State) : (Outcome.throw s).threw = true := rfl

@[simp] theorem modifyNode_progress (s : State) (i : Nat) (f : Elem → Elem) :
    (s.modifyNode i f).progress = s.progress := rfl

@[simp] theorem modifyNode_dom (s : State) (i j : Nat) (f : Elem → Elem) :
    (s.modifyNode i f).dom j = if j = i then f (s.dom i) else s.dom j := rfl

theorem mem_classListAdd (tokens : List String) (token : String) :
    token ∈ classListAdd tokens token := by
  unfold classListAdd
  split <;> simp [*]

/-! ## Result handling -/

/-- C1: with both references set, `determineResults` on a response object
completes normally; a truthy `success` puts `tridion__overlay--success` in the
class list of the tracked overlay and makes the counter text `SUCCESS`, a
falsy or missing one puts `tridion__overlay--failure` there and makes the
text `FAILED`. -/
theorem determineResults_marks_overlay_and_counter (fields : List (String × JSValue))
    (s : State) (o c : Nat) (ho : s.progress.overlay = some o)
    (hc : s.progress.counter = some c) :
    (determineResults (.object fields) s).threw = false ∧
    (truthy (fields.lookup "success") = true →
      ((determineResults (.object fields) s).state.dom o).classList
          = classListAdd (s.dom o).classList "tridion__overlay--success" ∧
      "tridion__overlay--success" ∈ ((determineResults (.object fields) s).state.dom o).classList ∧
      ((determineResults (.object fields) s).state.dom c).textContent = "SUCCESS") ∧
    (truthy (fields.lookup "success") = false →
      ((determineResults (.object fields) s).state.dom o).classList
          = classListAdd (s.dom o).classList "tridion__overlay--failure" ∧
      "tridion__overlay--failure" ∈ ((determineResults (.object fields) s).state.dom o).classList ∧
      ((determineResults (.object fields) s).state.dom c).textContent = "FAILED") := by
  refine ⟨?_, ?_, ?_⟩
  · by_cases ht : truthy (fields.lookup "success") = true <;>
      simp [determineResults, getSuccess, setTextContent, updateElementState, hc, ho, ht]
  · intro ht
    have key : ((determineResults (.object fields) s).state.dom o).classList
          = classListAdd (s.dom o).classList "tridion__overlay--success" := by
      by_cases hoc : o = c <;>
        simp [determineResults, getSuccess, setTextContent, updateElementState, hc, ho, ht, hoc,
          selectors]
    refine ⟨key, key ▸ mem_classListAdd _ _, ?_⟩
    by_cases hoc : c = o <;>
      simp [determineResults, getSuccess, setTextContent, updateElementState, hc, ho, ht, hoc,
        messages]
  · intro ht
    have key : ((determineResults (.object fields) s).state.dom o).classList
          = classListAdd (s.dom o).classList "tridion__overlay--failure" := by
      by_cases hoc : o = c <;>
        simp [determineResults, getSuccess, setTextContent, updateElementState, hc, ho, ht, hoc,
          selectors]
    refine ⟨key, key ▸ mem_classListAdd _ _, ?_⟩
    by_cases hoc : c = o <;>
      simp [determineResults, getSuccess, setTextContent, updateElementState, hc, ho, ht, hoc,
        messages]

/-- Witness of C1: a response `{success: true}` in a state tracking nodes `0`
and `2`. -/
theorem determineResults_marks_overlay_and_counter_witness :
    (trackedState 0 0).progress.overlay = some 0 ∧
    (trackedState 0 0).progress.counter = some 2 ∧
    "tridion__overlay--success" ∈
      ((determineResults (.object [("success", .bool true)]) (trackedState 0 0)).state.dom 0).classList ∧
    ((determineResults (.object [("success", .bool true)]) (trackedState 0 0)).state.dom 2).textContent
      = "SUCCESS" :=
  ⟨rfl, rfl,
    ((determineResults_marks_overlay_and_counter [("success", .bool true)] (trackedState 0 0) 0 2
      rfl rfl).2.1 (by decide)).2⟩

theorem determineResults_status (fields : List (String × JSValue)) (s : State) :
    (determineResults (.object fields) s).state.progress.status = false := by
  unfold determineResults
  simp only [getSuccess]
  split <;>
    cases hc : s.progress.counter <;> cases ho : s.progress.overlay <;>
      simp [setTextContent, updateElementState, hc, ho]

/-- C2: after `determineResults` on a response object, whatever the state
before and whichever branch ran (also when a missing reference made it throw),
`progress.status` is false, and the next call of `timer` takes its `else`
branch: it schedules nothing and calls a function callback once with
`done = true`. -/
theorem determineResults_clears_status (fields : List (String × JSValue)) (s : State) :
    (determineResults (.object fields) s).state.progress.status = false ∧
    (∀ callback, (timer callback (determineResults (.object fields) s).state).scheduled = []) ∧
    (∀ f, (timer (some f) (determineResults (.object fields) s).state).calls = [true]) := by
  have h := determineResults_status fields s
  refine ⟨h, ?_, ?_⟩
  · intro callback
    cases callback <;> simp [timer, h]
  · intro f
    simp [timer, h]

/-! ## The progress display -/

@[simp] theorem setStyleWidth_progress (ref : Option Nat) (w : String) (s : State) :
    (setStyleWidth ref w s).state.progress = s.progress := by
  cases ref <;> rfl

@[simp] theorem setTextContent_progress (ref : Option Nat) (t : String) (s : State) :
    (setTextContent ref t s).state.progress = s.progress := by
  cases ref <;> rfl

theorem andThen_progress (o : Outcome) (f : State → Outcome)
    (hf : ∀ s, (f s).state.progress = s.progress) :
    (o.andThen f).state.progress = o.state.progress := by
  unfold Outcome.andThen
  split
  · rfl
  · exact hf _

/-- The percentage writes of a tick leave the progress record as the update of
`loaded` made it. -/
theorem displayCounterTick_progress (r : ℚ) (s : State) :
    (displayCounterTick r s).state.progress =
      if s.progress.iteration < 75 then { s.progress with loaded := s.progress.loaded + r }
      else { s.progress with loaded := 100 - 50 * (75 / (s.progress.iteration : ℚ)) } := by
  unfold displayCounterTick
  rw [andThen_progress _ _ (fun s => setTextContent_progress _ _ s), setStyleWidth_progress]
  split <;> rfl

theorem displayCounter_le_cap (r : ℚ) (s : State) (h : s.progress.iteration ≤ 400) :
    displayCounter false r s = displayCounterTick r s := by
  have : ¬ s.progress.iteration > 400 := by omega
  simp [displayCounter, this]

/-- A non-done call of `timer` ends in the state its callback reaches from the
state with the iteration counted. -/
theorem timer_state_of_status (f : Bool → State → Outcome) (t : State)
    (h : t.progress.status = true) :
    (timer (some f) t).state =
      (f false { t with progress := { t.progress with iteration := t.progress.iteration + 1 } }).state := by
  unfold timer
  rw [if_pos h]
  dsimp only
  split <;> rfl

/-- Below iteration 75 a non-done `displayCounter` changes only `loaded` in the
progress record. -/
theorem displayCounter_progress_below (x : ℚ) (t : State) (ht : t.progress.iteration < 75) :
    (displayCounter false x t).state.progress =
      { t.progress with loaded := t.progress.loaded + x } := by
  rw [displayCounter_le_cap x t (by omega), displayCounterTick_progress, if_pos ht]

/-- One tick of the running timer below iteration 74. -/
theorem timer_tick_progress (x : ℚ) (t : State) (hst : t.progress.status = true)
    (hi : t.progress.iteration + 1 < 75) :
    (timer (some fun done => displayCounter done x) t).state.progress =
      { t.progress with iteration := t.progress.iteration + 1, loaded := t.progress.loaded + x } := by
  rw [timer_state_of_status _ t hst, displayCounter_progress_below x _ hi]

theorem runTimer_loaded_le (rs : List ℚ) : ∀ t : State, (∀ x ∈ rs, 0 ≤ x ∧ x < 1) →
    t.progress.status = true → t.progress.iteration + rs.length < 75 →
    t.progress.loaded ≤ (runTimer rs t).progress.loaded := by
  induction rs with
  | nil => intro t _ _ _; exact le_refl _
  | cons x xs ih =>
    intro t hx hst hlen
    simp only [List.length_cons] at hlen
    have hx0 := (hx x (List.mem_cons_self _ _)).1
    have hp := timer_tick_progress x t hst (by omega)
    have hle : t.progress.loaded ≤
        (timer (some fun done => displayCounter done x) t).state.progress.loaded := by
      rw [hp]; simpa using hx0
    unfold runTimer
    dsimp only
    split
    · exact hle
    · refine le_trans hle (ih _ (fun y hy => hx y (List.mem_cons_of_mem _ hy)) ?_ ?_)
      · rw [hp]; exact hst
      · rw [hp]; simp only; omega

/-- C7: below iteration 75 a non-done `displayCounter()` adds the random
increment to `progress.loaded`, so with `0 ≤ r < 1` the value does not
decrease, and it does not decrease over any run of ticks of the timer that
stays below iteration 75. -/
theorem displayCounter_loaded_monotone (s : State) (r : ℚ)
    (hi : s.progress.iteration < 75) (h0 : 0 ≤ r) (_h1 : r < 1) :
    (displayCounter false r s).state.progress.loaded = s.progress.loaded + r ∧
    s.progress.loaded ≤ (displayCounter false r s).state.progress.loaded ∧
    (displayCounter false r s).state.progress.iteration = s.progress.iteration ∧
    (∀ (rs : List ℚ) (t : State), (∀ x ∈ rs, 0 ≤ x ∧ x < 1) → t.progress.status = true →
      t.progress.iteration + rs.length < 75 →
      t.progress.loaded ≤ (runTimer rs t).progress.loaded) := by
  have hstep := displayCounter_progress_below r s hi
  exact ⟨by rw [hstep], by rw [hstep]; simpa using h0, by rw [hstep],
    fun rs t => runTimer_loaded_le rs t⟩

/-- Witness of C7: iteration 10, loaded 3, increment one half. -/
theorem displayCounter_loaded_monotone_witness :
    (trackedState 10 3).progress.iteration < 75 ∧ (0 : ℚ) ≤ 1 / 2 ∧ (1 / 2 : ℚ) < 1 ∧
    (displayCounter false (1 / 2) (trackedState 10 3)).state.progress.loaded
      = (trackedState 10 3).progress.loaded + 1 / 2 :=
  ⟨by decide, by norm_num, by norm_num,
    (displayCounter_loaded_monotone (trackedState 10 3) (1 / 2) (by decide) (by norm_num)
      (by norm_num)).1⟩

/-- From iteration 75 up to the cap a non-done `displayCounter` stores the
value of the formula. -/
theorem displayCounter_loaded_formula (r : ℚ) (s : State) (h75 : 75 ≤ s.progress.iteration)
    (h400 : s.progress.iteration ≤ 400) :
    (displayCounter false r s).state.progress.loaded
      = 100 - 50 * (75 / (s.progress.iteration : ℚ)) := by
  rw [displayCounter_le_cap r s h400, displayCounterTick_progress, if_neg (by omega)]

/-- C8: for an iteration `i` with `75 ≤ i ≤ 400` a non-done `displayCounter()`
sets `progress.loaded` to `100 - 50 * (75 / i)`; that value lies in `[50, 100)`
and is strictly larger at a larger iteration of the range. -/
theorem displayCounter_loaded_asymptotic (s : State) (r : ℚ)
    (h75 : 75 ≤ s.progress.iteration) (h400 : s.progress.iteration ≤ 400) :
    (displayCounter false r s).state.progress.loaded
      = 100 - 50 * (75 / (s.progress.iteration : ℚ)) ∧
    50 ≤ (displayCounter false r s).state.progress.loaded ∧
    (displayCounter false r s).state.progress.loaded < 100 ∧
    (∀ (t : State) (x : ℚ), s.progress.iteration < t.progress.iteration →
      t.progress.iteration ≤ 400 →
      (displayCounter false r s).state.progress.loaded
        < (displayCounter false x t).state.progress.loaded) := by
  have hi : (75 : ℚ) ≤ (s.progress.iteration : ℚ) := by exact_mod_cast h75
  have hpos : (0 : ℚ) < (s.progress.iteration : ℚ) := by linarith
  have hf := displayCounter_loaded_formula r s h75 h400
  refine ⟨hf, ?_, ?_, ?_⟩
  · rw [hf]
    have : 75 / (s.progress.iteration : ℚ) ≤ 1 := (div_le_one hpos).2 hi
    linarith
  · rw [hf]
    have : 0 < 75 / (s.progress.iteration : ℚ) := div_pos (by norm_num) hpos
    linarith
  · intro t x hlt ht
    rw [hf, displayCounter_loaded_formula x t (by omega) ht]
    have hlt' : (s.progress.iteration : ℚ) < (t.progress.iteration : ℚ) := by exact_mod_cast hlt
    have : 75 / (t.progress.iteration : ℚ) < 75 / (s.progress.iteration : ℚ) :=
      div_lt_div_of_pos_left (by norm_num) hpos hlt'
    linarith

/-- Witness of C8: iteration 400 gives `90.625`. -/
theorem displayCounter_loaded_asymptotic_witness :
    75 ≤ (trackedState 400 0).progress.iteration ∧ (trackedState 400 0).progress.iteration ≤ 400 ∧
    (displayCounter false 0 (trackedState 400 0)).state.progress.loaded
      = 100 - 50 * (75 / (((trackedState 400 0).progress.iteration : ℕ) : ℚ)) :=
  ⟨by decide, by decide,
    (displayCounter_loaded_asymptotic (trackedState 400 0) 0 (by decide) (by decide)).1⟩

/-- Evaluation of `toPrecision` from the numerator and denominator. -/
theorem toPrecision_eq (p : Nat) (x : ℚ) (a b : Nat) (hx : 0 ≤ x) (ha : x.num = a)
    (hb : x.den = b) : toPrecision p x = toPrecisionFrac p false a b := by
  unfold toPrecision
  rw [ha, hb, Int.natAbs_ofNat, decide_eq_false (not_lt.2 hx)]

/-- Counterexample to C9: at iteration exactly 400 the non-done call does not
run the done branch: the iteration stays 400 where the forced done path would
leave 0, and the loader shows the value of the formula, `90.63%`. -/
theorem displayCounter_at_400_not_done :
    (trackedState 400 0).progress.iteration = 400 ∧
    (displayCounter false (1 / 2) (trackedState 400 0)).state.progress.iteration = 400 ∧
    ((displayCounterDone (trackedState 400 0)).andThen
      (displayCounterTick (1 / 2))).state.progress.iteration = 0 ∧
    displayCounter false (1 / 2) (trackedState 400 0)
      ≠ (displayCounterDone (trackedState 400 0)).andThen (displayCounterTick (1 / 2)) ∧
    ((displayCounter false (1 / 2) (trackedState 400 0)).state.dom 1).styleWidth = "90.63%" := by
  have h1 : (displayCounter false (1 / 2) (trackedState 400 0)).state.progress.iteration = 400 := by
    rw [displayCounter_le_cap _ _ (by decide), displayCounterTick_progress]
    rfl
  have h2 : ((displayCounterDone (trackedState 400 0)).andThen
      (displayCounterTick (1 / 2))).state.progress.iteration = 0 := by
    simp only [displayCounterDone, trackedState, setStyleWidth, andThen_ok,
      displayCounterTick_progress]
    rfl
  refine ⟨rfl, h1, h2, ?_, ?_⟩
  · intro h
    rw [h, h2] at h1
    exact absurd h1 (by decide)
  · have hp : toPrecision 4 (725 / 8 : ℚ) = "90.63" := by
      rw [toPrecision_eq 4 (725 / 8) 725 8 (by norm_num) (by norm_num) (by norm_num)]
      decide
    rw [displayCounter_le_cap _ _ (by decide)]
    simp only [displayCounterTick, trackedState, setStyleWidth, setTextContent, andThen_ok,
      ok_state, modifyNode_dom, modifyNode_progress]
    norm_num
    rw [hp]
    rfl

/-- C9 as amended: above iteration 400 a non-done `displayCounter()` runs the
done branch first, whatever `progress.status` is, and with the loader set the
reset of the iteration to 0 by that branch is what the call leaves; at
iteration 400 or below the done branch does not run and the iteration is left
as it was. -/
theorem displayCounter_forced_done_iff_above_cap (s : State) (r : ℚ) :
    (400 < s.progress.iteration →
      displayCounter false r s = (displayCounterDone s).andThen (displayCounterTick r) ∧
      (displayCounter false r s).state.progress.status = s.progress.status ∧
      (s.progress.loader ≠ none →
        (displayCounter false r s).state.progress.iteration = 0 ∧
        (displayCounter false r s).state.progress.loaded = r)) ∧
    (s.progress.iteration ≤ 400 →
      displayCounter false r s = displayCounterTick r s ∧
      (displayCounter false r s).state.progress.iteration = s.progress.iteration) := by
  constructor
  · intro h
    have hd : displayCounter false r s
        = (displayCounterDone s).andThen (displayCounterTick r) := by
      simp [displayCounter, h]
    refine ⟨hd, ?_, ?_⟩
    · rw [hd]
      cases hl : s.progress.loader with
      | none => simp [displayCounterDone, setStyleWidth, hl]
      | some l =>
        simp only [displayCounterDone, setStyleWidth, hl, andThen_ok, displayCounterTick_progress]
        split <;> rfl
    · intro hl
      obtain ⟨l, hl⟩ := Option.ne_none_iff_exists'.1 hl
      rw [hd]
      simp only [displayCounterDone, setStyleWidth, hl, andThen_ok, displayCounterTick_progress]
      simp
  · intro h
    have hd := displayCounter_le_cap r s h
    refine ⟨hd, ?_⟩
    rw [hd, displayCounterTick_progress]
    split <;> rfl

/-- Witness of C9 as amended: iteration 401 takes the forced done path. -/
theorem displayCounter_forced_done_iff_above_cap_witness :
    400 < (trackedState 401 95).progress.iteration ∧
    displayCounter false (1 / 2) (trackedState 401 95)
      = (displayCounterDone (trackedState 401 95)).andThen (displayCounterTick (1 / 2)) :=
  ⟨by decide,
    ((displayCounter_forced_done_iff_above_cap (trackedState 401 95) (1 / 2)).1 (by decide)).1⟩

/-- C10 at the failing input: iteration 401, `Math.random()` returning one
half. The call returns normally and the loader width is `0.5000%`, not `100%`;
the timer flag is still set. -/
theorem displayCounter_above_cap_width :
    (displayCounter false (1 / 2) (trackedState 401 95)).threw = false ∧
    ((displayCounter false (1 / 2) (trackedState 401 95)).state.dom 1).styleWidth = "0.5000%" ∧
    ((displayCounter false (1 / 2) (trackedState 401 95)).state.dom 1).styleWidth ≠ "100%" ∧
    (displayCounter false (1 / 2) (trackedState 401 95)).state.progress.status = true := by
  have hp : toPrecision 4 (1 / 2 : ℚ) = "0.5000" := by
    rw [toPrecision_eq 4 (1 / 2) 1 2 (by norm_num) (by norm_num) (by norm_num)]
    decide
  have hp' : toPrecision 4 (2⁻¹ : ℚ) = "0.5000" := by rw [← hp]; norm_num
  have hw : ((displayCounter false (1 / 2) (trackedState 401 95)).state.dom 1).styleWidth
      = "0.5000%" := by
    simp [displayCounter, displayCounterDone, displayCounterTick, trackedState, setStyleWidth,
      setTextContent, hp']
  refine ⟨?_, hw, ?_, ?_⟩
  · simp [displayCounter, displayCounterDone, displayCounterTick, trackedState, setStyleWidth,
      setTextContent]
  · rw [hw]; decide
  · simp [displayCounter, displayCounterDone, displayCounterTick, trackedState, setStyleWidth,
      setTextContent]

/-! ## Form-body encoding -/

theorem replaceRuns_skip (a b c : Char) (least : Nat) (repl : List Char) :
    ∀ (skip : Nat) (s : List Char),
      replaceRuns a b c least repl skip s = replaceRuns a b c least repl 0 (s.drop skip) := by
  intro skip
  induction skip with
  | zero => intro s; rfl
  | succ n ih =>
    intro s
    cases s with
    | nil => rfl
    | cons x rest => simp only [replaceRuns, List.drop_succ_cons]; exact ih rest

/-- One step of the scan for tabs. -/
theorem replaceTabs_cons (x : Char) (rest : List Char) :
    replaceTabs (x :: rest) =
      if 1 ≤ countReps '%' '0' '9' (x :: rest) then
        '%' :: '2' :: '0' :: replaceTabs (rest.drop (3 * countReps '%' '0' '9' (x :: rest) - 1))
      else x :: replaceTabs rest := by
  unfold replaceTabs
  rw [replaceRuns]
  split
  · rw [replaceRuns_skip]; rfl
  · rfl

/-- A first output character other than `%` was copied from the input. -/
theorem replaceTabs_head (s out : List Char) (y : Char) (hy : y ≠ '%')
    (h : replaceTabs s = y :: out) : ∃ t, s = y :: t ∧ out = replaceTabs t := by
  cases s with
  | nil => simp [replaceTabs, replaceRuns] at h
  | cons x rest =>
    rw [replaceTabs_cons] at h
    split at h
    · injection h with h1 _
      exact absurd h1.symm hy
    · injection h with h1 h2
      exact ⟨rest, by rw [h1], h2.symm⟩

theorem countReps_tab_pos (r : List Char) : 1 ≤ countReps '%' '0' '9' ('%' :: '0' :: '9' :: r) := by
  simp [countReps]

theorem replaceTabs_no_tab_aux : ∀ (n : Nat) (s : List Char), s.length ≤ n →
    ¬ ['%', '0', '9'] <:+: replaceTabs s := by
  intro n
  induction n with
  | zero =>
    intro s hs
    have : s = [] := List.length_eq_zero.1 (by omega)
    subst this
    simp [replaceTabs, replaceRuns]
  | succ n ih =>
    intro s hs
    cases s with
    | nil => simp [replaceTabs, replaceRuns]
    | cons x rest =>
      have hrest : rest.length ≤ n := by simpa using hs
      rw [replaceTabs_cons]
      split
      · intro h
        rw [List.infix_cons_iff] at h
        rcases h with h | h
        · have := (List.cons_prefix_cons.1 h).2
          have := (List.cons_prefix_cons.1 this).1
          exact absurd this (by decide)
        · rw [List.infix_cons_iff] at h
          rcases h with h | h
          · exact absurd (List.cons_prefix_cons.1 h).1 (by decide)
          · rw [List.infix_cons_iff] at h
            rcases h with h | h
            · exact absurd (List.cons_prefix_cons.1 h).1 (by decide)
            · exact ih _ (by rw [List.length_drop]; omega) h
      · rename_i hk
        intro h
        rw [List.infix_cons_iff] at h
        rcases h with h | h
        · obtain ⟨hx, h2⟩ := List.cons_prefix_cons.1 h
          obtain ⟨t, ht⟩ := h2
          obtain ⟨r1, hr1, ht1⟩ := replaceTabs_head rest _ '0' (by decide) ht.symm
          obtain ⟨r2, hr2, _⟩ := replaceTabs_head r1 _ '9' (by decide) ht1.symm
          subst hr1 hr2
          rw [← hx] at hk
          exact hk (countReps_tab_pos r2)
        · exact ih rest hrest h

/-- The result of the replacement of tabs contains no `%09`. -/
theorem replaceTabs_no_tab (s : List Char) : ¬ ['%', '0', '9'] <:+: replaceTabs s :=
  replaceTabs_no_tab_aux s.length s (le_refl _)

/-- A prefix free of `%` adds no occurrence of a string that starts with `%`. -/
theorem not_infix_append_of_no_percent (pat : List Char) (p x : List Char)
    (hp : ∀ c ∈ p, c ≠ '%') (hx : ¬ ('%' :: pat) <:+: x) : ¬ ('%' :: pat) <:+: p ++ x := by
  induction p with
  | nil => simpa using hx
  | cons c p ih =>
    intro h
    rw [List.cons_append, List.infix_cons_iff] at h
    rcases h with h | h
    · exact hp c (List.mem_cons_self _ _) (List.cons_prefix_cons.1 h).1.symm
    · exact ih (fun d hd => hp d (List.mem_cons_of_mem _ hd)) h

theorem formBody_toList (data : String) :
    (formBody data).toList =
      "source=".toList ++ replaceTabs (collapseSpaces (encodeURIComponent data.toList)) := by
  unfold formBody
  rw [String.toList, String.data_append]
  rfl

/-- The body of the request contains no `%09`. -/
theorem formBody_no_tab (data : String) : ¬ "%09".toList <:+: (formBody data).toList := by
  rw [formBody_toList]
  exact not_infix_append_of_no_percent ['0', '9'] _ _ (by decide) (replaceTabs_no_tab _)

/-- C3 at the failing input: a space followed by a tab. The body built by
`postData` is `source=%3Cp%3Ea%20%20b%3C%2Fp%3E`, which contains `%20%20`. -/
theorem postData_space_tab_body :
    (postData "//localhost:3000/update-component/tcm:1" "<p>a \tb</p>").body
      = "source=%3Cp%3Ea%20%20b%3C%2Fp%3E" ∧
    "%20%20".toList <:+:
      (postData "//localhost:3000/update-component/tcm:1" "<p>a \tb</p>").body.toList := by
  have h : (postData "//localhost:3000/update-component/tcm:1" "<p>a \tb</p>").body
      = "source=%3Cp%3Ea%20%20b%3C%2Fp%3E" := by decide
  refine ⟨h, ?_⟩
  rw [h]
  exact ⟨"source=%3Cp%3Ea".toList, "b%3C%2Fp%3E".toList, by decide⟩

/-! ### Runs of encoded tabs -/

/-- One step of the scan. -/
theorem replaceRuns_cons (a b c : Char) (least : Nat) (repl : List Char) (x : Char)
    (rest : List Char) :
    replaceRuns a b c least repl 0 (x :: rest) =
      if least ≤ countReps a b c (x :: rest) then
        repl ++ replaceRuns a b c least repl 0 (rest.drop (3 * countReps a b c (x :: rest) - 1))
      else x :: replaceRuns a b c least repl 0 rest := by
  rw [replaceRuns]
  split
  · rw [replaceRuns_skip]
  · rfl

theorem countReps_length (a b c : Char) : ∀ s : List Char, 3 * countReps a b c s ≤ s.length
  | [] => by simp [countReps]
  | [_] => by simp [countReps]
  | [_, _] => by simp [countReps]
  | x :: y :: z :: rest => by
    have ih := countReps_length a b c rest
    rw [countReps]
    split <;> simp only [List.length_cons] <;> omega

theorem countReps_of_head_ne (a b c x : Char) (s : List Char) (h : x ≠ a) :
    countReps a b c (x :: s) = 0 := by
  match s with
  | [] => rfl
  | [_] => rfl
  | y :: z :: rest => rw [countReps]; simp [h]

/-- The scan of `X ++ R` is the scan of `X` followed by the scan of `R` when no
match that starts in `X` is changed by what follows. -/
theorem replaceRuns_append (a b c : Char) (least : Nat) (repl : List Char) (R : List Char) :
    ∀ (n : Nat) (X : List Char), X.length ≤ n →
      (∀ X', X' ≠ [] → X' <:+ X → countReps a b c (X' ++ R) = countReps a b c X') →
      replaceRuns a b c least repl 0 (X ++ R)
        = replaceRuns a b c least repl 0 X ++ replaceRuns a b c least repl 0 R := by
  intro n
  induction n with
  | zero =>
    intro X hX _
    have : X = [] := List.length_eq_zero.1 (by omega)
    subst this
    simp [replaceRuns]
  | succ n ih =>
    intro X hX hc
    cases X with
    | nil => simp [replaceRuns]
    | cons x rest =>
      have hrest : rest.length ≤ n := by simpa using hX
      have hk := hc (x :: rest) (by simp) (List.suffix_refl _)
      have hlen := countReps_length a b c (x :: rest)
      simp only [List.length_cons] at hlen
      rw [List.cons_append, replaceRuns_cons, replaceRuns_cons, ← List.cons_append, hk]
      split
      · rw [List.drop_append_of_le_length (by omega), List.append_assoc]
        congr 1
        refine ih _ (by rw [List.length_drop]; omega) ?_
        intro X' hne hs
        exact hc X' hne (hs.trans ((List.drop_suffix _ _).trans (List.suffix_cons _ _)))
      · rw [List.cons_append]
        congr 1
        exact ih rest hrest fun X' hne hs => hc X' hne (hs.trans (List.suffix_cons _ _))

/-- A run of encoded spaces that starts before an encoded tab ends before it. -/
theorem countReps_space_append_tab (R : List Char) :
    ∀ X : List Char, countReps '%' '2' '0' (X ++ '%' :: '0' :: R) = countReps '%' '2' '0' X
  | [] => by
    cases R with
    | nil => rfl
    | cons z r => simp [countReps]
  | [x] => by simp [countReps]
  | [x, y] => by simp [countReps]
  | x :: y :: z :: rest => by
    have ih := countReps_space_append_tab R rest
    simp only [List.cons_append]
    rw [countReps, countReps, ih]

/-- A run of encoded tabs that starts in `X` ends in `X` when `X` does not end
with an encoded tab. -/
theorem countReps_tab_append_tab (R : List Char) :
    ∀ X : List Char, X ≠ [] → ¬ ['%', '0', '9'] <:+ X →
      countReps '%' '0' '9' (X ++ '%' :: '0' :: '9' :: R) = countReps '%' '0' '9' X
  | [], h, _ => absurd rfl h
  | [x], _, _ => by simp [countReps]
  | [x, y], _, _ => by simp [countReps]
  | [x, y, z], _, hs => by
    have : ¬ (x = '%' ∧ y = '0' ∧ z = '9') := by
      rintro ⟨rfl, rfl, rfl⟩
      exact hs (List.suffix_refl _)
    simp [countReps, this]
  | x :: y :: z :: w :: rest, _, hs => by
    have ih := countReps_tab_append_tab R (w :: rest) (by simp)
      (fun h => hs (h.trans (by
        exact ⟨[x, y, z], rfl⟩)))
    simp only [List.cons_append] at ih ⊢
    rw [countReps, countReps, ih]

theorem tabRun_succ_append (n : Nat) (Q : List Char) :
    tabRun (n + 1) ++ Q = '%' :: '0' :: '9' :: (tabRun n ++ Q) := rfl

/-- The scan for spaces copies a run of encoded tabs. -/
theorem collapseSpaces_tabRun_append (Q : List Char) : ∀ n : Nat,
    collapseSpaces (tabRun n ++ Q) = tabRun n ++ collapseSpaces Q
  | 0 => rfl
  | n + 1 => by
    have ih := collapseSpaces_tabRun_append Q n
    unfold collapseSpaces at ih ⊢
    have h1 : countReps '%' '2' '0' ('%' :: '0' :: '9' :: (tabRun n ++ Q)) = 0 := by
      simp [countReps]
    rw [tabRun_succ_append, replaceRuns_cons, h1, if_neg (by decide),
      replaceRuns_cons, countReps_of_head_ne _ _ _ _ _ (by decide), if_neg (by decide),
      replaceRuns_cons, countReps_of_head_ne _ _ _ _ _ (by decide), if_neg (by decide), ih]
    rfl

theorem collapseSpaces_append_tabRun (pre Q : List Char) (n : Nat) :
    collapseSpaces (pre ++ (tabRun (n + 1) ++ Q))
      = collapseSpaces pre ++ (tabRun (n + 1) ++ collapseSpaces Q) := by
  rw [← collapseSpaces_tabRun_append]
  unfold collapseSpaces
  exact replaceRuns_append _ _ _ _ _ _ pre.length pre (le_refl _)
    fun X' _ _ => countReps_space_append_tab _ X'

theorem countReps_tabRun_append (Q : List Char) (hQ : ¬ ['%', '0', '9'] <+: Q) : ∀ n : Nat,
    countReps '%' '0' '9' (tabRun n ++ Q) = n
  | 0 => by
    match Q, hQ with
    | [], _ => rfl
    | [_], _ => rfl
    | [_, _], _ => rfl
    | x :: y :: z :: rest, hQ =>
      have : ¬ (x = '%' ∧ y = '0' ∧ z = '9') := by
        rintro ⟨rfl, rfl, rfl⟩
        exact hQ ⟨rest, rfl⟩
      simp [tabRun, countReps, this]
  | n + 1 => by
    rw [tabRun_succ_append, countReps, countReps_tabRun_append Q hQ n]
    simp

theorem drop_tabRun_append (Q : List Char) : ∀ n : Nat, (tabRun n ++ Q).drop (3 * n) = Q
  | 0 => rfl
  | n + 1 => by
    rw [tabRun_succ_append, show 3 * (n + 1) = 3 * n + 1 + 1 + 1 by ring]
    simp only [List.drop_succ_cons]
    exact drop_tabRun_append Q n

/-- The scan for tabs turns a whole run into one encoded space. -/
theorem replaceTabs_tabRun_append (Q : List Char) (hQ : ¬ ['%', '0', '9'] <+: Q) (n : Nat) :
    replaceTabs (tabRun (n + 1) ++ Q) = ['%', '2', '0'] ++ replaceTabs Q := by
  have hk := countReps_tabRun_append Q hQ (n + 1)
  rw [tabRun_succ_append] at hk
  have hd := drop_tabRun_append Q (n + 1)
  rw [tabRun_succ_append, show 3 * (n + 1) = (3 * (n + 1) - 1) + 1 by omega,
    List.drop_succ_cons] at hd
  rw [tabRun_succ_append, replaceTabs_cons, hk, if_pos (by omega), hd]
  rfl

theorem replaceTabs_append_tabRun (P Q : List Char) (n : Nat) (hP : ¬ ['%', '0', '9'] <:+ P)
    (hQ : ¬ ['%', '0', '9'] <+: Q) :
    replaceTabs (P ++ (tabRun (n + 1) ++ Q)) = replaceTabs P ++ (['%', '2', '0'] ++ replaceTabs Q) := by
  rw [← replaceTabs_tabRun_append Q hQ n]
  unfold replaceTabs
  refine replaceRuns_append _ _ _ _ _ _ P.length P (le_refl _) ?_
  intro X' hne hs
  exact countReps_tab_append_tab _ X' hne fun h => hP (h.trans hs)

/-- One step of the scan for spaces. -/
theorem collapseSpaces_cons (x : Char) (rest : List Char) :
    collapseSpaces (x :: rest) =
      if 2 ≤ countReps '%' '2' '0' (x :: rest) then
        '%' :: '2' :: '0' ::
          collapseSpaces (rest.drop (3 * countReps '%' '2' '0' (x :: rest) - 1))
      else x :: collapseSpaces rest := by
  unfold collapseSpaces
  rw [replaceRuns_cons]
  rfl

theorem collapseSpaces_eq_nil (s : List Char) (h : collapseSpaces s = []) : s = [] := by
  cases s with
  | nil => rfl
  | cons x rest =>
    rw [collapseSpaces_cons] at h
    split at h <;> simp at h

/-- A first output character followed by something other than `2` was copied
from the input. -/
theorem collapseSpaces_head (s out : List Char) (y z : Char) (hz : z ≠ '2')
    (h : collapseSpaces s = y :: z :: out) :
    ∃ t, s = y :: t ∧ z :: out = collapseSpaces t := by
  cases s with
  | nil => simp [collapseSpaces, replaceRuns] at h
  | cons x rest =>
    rw [collapseSpaces_cons] at h
    split at h
    · injection h with _ h2
      injection h2 with h3 _
      exact absurd h3.symm hz
    · injection h with h1 h2
      exact ⟨rest, by rw [h1], h2.symm⟩

/-- A first output character other than `%` was copied from the input. -/
theorem collapseSpaces_head_ne (s out : List Char) (y : Char) (hy : y ≠ '%')
    (h : collapseSpaces s = y :: out) : ∃ t, s = y :: t ∧ out = collapseSpaces t := by
  cases s with
  | nil => simp [collapseSpaces, replaceRuns] at h
  | cons x rest =>
    rw [collapseSpaces_cons] at h
    split at h
    · injection h with h1 _
      exact absurd h1.symm hy
    · injection h with h1 h2
      exact ⟨rest, by rw [h1], h2.symm⟩

/-- The scan for spaces does not create an encoded tab at the start. -/
theorem collapseSpaces_prefix_tab (Q : List Char) (h : ['%', '0', '9'] <+: collapseSpaces Q) :
    ['%', '0', '9'] <+: Q := by
  obtain ⟨t, ht⟩ := h
  obtain ⟨r0, hr0, h0⟩ := collapseSpaces_head Q _ '%' '0' (by decide) ht.symm
  obtain ⟨r1, hr1, h1⟩ := collapseSpaces_head_ne r0 _ '0' (by decide) h0.symm
  obtain ⟨r2, hr2, _⟩ := collapseSpaces_head_ne r1 _ '9' (by decide) h1.symm
  subst hr0 hr1 hr2
  exact ⟨r2, rfl⟩

theorem collapseSpaces_suffix_tab_aux : ∀ (n : Nat) (P : List Char), P.length ≤ n →
    ['%', '0', '9'] <:+ collapseSpaces P → ['%', '0', '9'] <:+ P := by
  intro n
  induction n with
  | zero =>
    intro P hP h
    have : P = [] := List.length_eq_zero.1 (by omega)
    subst this
    exact h
  | succ n ih =>
    intro P hP h
    cases P with
    | nil => exact h
    | cons x rest =>
      have hrest : rest.length ≤ n := by simpa using hP
      rw [collapseSpaces_cons] at h
      split at h
      · rw [List.suffix_cons_iff] at h
        rcases h with h | h
        · injection h with _ h2
          injection h2 with h3 _
          exact absurd h3 (by decide)
        · rw [List.suffix_cons_iff] at h
          rcases h with h | h
          · injection h with h1 _
            exact absurd h1 (by decide)
          · rw [List.suffix_cons_iff] at h
            rcases h with h | h
            · injection h with h1 _
              exact absurd h1 (by decide)
            · exact (ih _ (by rw [List.length_drop]; omega) h).trans
                ((List.drop_suffix _ _).trans (List.suffix_cons _ _))
      · rw [List.suffix_cons_iff] at h
        rcases h with h | h
        · injection h with h1 h2
          obtain ⟨r1, hr1, h3⟩ := collapseSpaces_head_ne rest _ '0' (by decide) h2.symm
          obtain ⟨r2, hr2, h4⟩ := collapseSpaces_head_ne r1 _ '9' (by decide) h3.symm
          have hr2nil := collapseSpaces_eq_nil r2 h4.symm
          subst hr1 hr2 hr2nil h1
          exact List.suffix_refl _
        · exact (ih rest hrest h).trans (List.suffix_cons _ _)

/-- The scan for spaces does not create an encoded tab at the end. -/
theorem collapseSpaces_suffix_tab (P : List Char) (h : ['%', '0', '9'] <:+ collapseSpaces P) :
    ['%', '0', '9'] <:+ P :=
  collapseSpaces_suffix_tab_aux P.length P (le_refl _) h

/-- A maximal run of encoded tabs in the encoded markup becomes one `%20` of
the body, between the results for what precedes and what follows it. -/
theorem formBody_tabRun (data : String) (pre post : List Char) (n : Nat) (hn : 0 < n)
    (henc : encodeURIComponent data.toList = pre ++ (tabRun n ++ post))
    (hpre : ¬ ['%', '0', '9'] <:+ pre) (hpost : ¬ ['%', '0', '9'] <+: post) :
    (formBody data).toList =
      "source=".toList ++ (replaceTabs (collapseSpaces pre) ++
        (['%', '2', '0'] ++ replaceTabs (collapseSpaces post))) := by
  obtain ⟨m, rfl⟩ : ∃ m, n = m + 1 := ⟨n - 1, by omega⟩
  rw [formBody_toList, henc, collapseSpaces_append_tabRun,
    replaceTabs_append_tabRun _ _ _ (fun h => hpre (collapseSpaces_suffix_tab _ h))
      (fun h => hpost (collapseSpaces_prefix_tab _ h))]

/-- C4: the body built by `postData` contains no `%09`; every maximal run of
encoded tabs of the URL-encoded markup (one not preceded and not followed by a
further `%09`) is replaced by a single `%20`. -/
theorem postData_body_no_encoded_tab (server data : String) :
    ¬ "%09".toList <:+: (postData server data).body.toList ∧
    (∀ (pre post : List Char) (n : Nat), 0 < n →
      encodeURIComponent data.toList = pre ++ (tabRun n ++ post) →
      ¬ "%09".toList <:+ pre → ¬ "%09".toList <+: post →
      (postData server data).body.toList =
        "source=".toList ++ (replaceTabs (collapseSpaces pre) ++
          ("%20".toList ++ replaceTabs (collapseSpaces post)))) :=
  ⟨formBody_no_tab data, fun pre post n hn henc hpre hpost =>
    formBody_tabRun data pre post n hn henc hpre hpost⟩

/-- Witness of C4: the markup `a`, two tabs, `b`. -/
theorem postData_body_no_encoded_tab_witness :
    0 < 2 ∧ encodeURIComponent "a\t\tb".toList = ['a'] ++ (tabRun 2 ++ ['b']) ∧
    ¬ "%09".toList <:+ ['a'] ∧ ¬ "%09".toList <+: ['b'] ∧
    (postData "" "a\t\tb").body.toList =
      "source=".toList ++ (replaceTabs (collapseSpaces ['a']) ++
        ("%20".toList ++ replaceTabs (collapseSpaces ['b']))) :=
  ⟨by decide, by decide, by decide, by decide,
    (postData_body_no_encoded_tab "" "a\t\tb").2 ['a'] ['b'] 2 (by decide) (by decide)
      (by decide) (by decide)⟩

/-! ## Paths and local changes -/

theorem nodeAt_append (p q : List Nat) : ∀ n : Node,
    nodeAt (p ++ q) n = (nodeAt p n).bind (nodeAt q) := by
  induction p with
  | nil => intro n; rfl
  | cons i p ih =>
    intro n
    cases n with
    | text d => rfl
    | comment d => rfl
    | element t a cs =>
      simp only [List.cons_append, nodeAt]
      cases h : cs[i]? with
      | none => rfl
      | some c => simp [ih]

theorem modifyAt_append (f : Node → Node) (p q : List Nat) : ∀ n : Node,
    modifyAt f (p ++ q) n = modifyAt (modifyAt f q) p n := by
  induction p with
  | nil => intro n; rfl
  | cons i p ih =>
    intro n
    cases n with
    | text d => rfl
    | comment d => rfl
    | element t a cs =>
      simp only [List.cons_append, modifyAt]
      congr 1
      congr 1
      funext c
      exact ih c

theorem nodeAt_modifyAt_self (f : Node → Node) (p : List Nat) : ∀ n : Node,
    nodeAt p (modifyAt f p n) = (nodeAt p n).map f := by
  induction p with
  | nil => intro n; rfl
  | cons i p ih =>
    intro n
    cases n with
    | text d => rfl
    | comment d => rfl
    | element t a cs =>
      simp only [modifyAt, nodeAt, List.getElem?_modify_eq]
      cases h : cs[i]? with
      | none => rfl
      | some c => simp [ih]

/-- A change below the path `p` is a change of the node at `p`. -/
theorem nodeAt_modifyAt_below (f : Node → Node) (p q : List Nat) (n : Node) :
    nodeAt p (modifyAt f (p ++ q) n) = (nodeAt p n).map (modifyAt f q) := by
  rw [modifyAt_append, nodeAt_modifyAt_self]

/-- A change elsewhere, one that keeps children in place, leaves the node at
`p` as it is. -/
theorem nodeAt_modifyAt_other (f : Node → Node) (hf : KeepsChildren f) (q : List Nat) :
    ∀ (p : List Nat) (n e : Node), nodeAt p n = some e → ¬ p <+: q →
      nodeAt p (modifyAt f q n) = some e := by
  induction q with
  | nil =>
    intro p n e hp hpq
    cases p with
    | nil => exact absurd (List.prefix_refl _) hpq
    | cons i p =>
      cases n with
      | text d => simp [nodeAt] at hp
      | comment d => simp [nodeAt] at hp
      | element t a cs =>
        obtain ⟨a', extra, hfe⟩ := hf t a cs
        simp only [modifyAt, hfe, nodeAt] at hp ⊢
        cases h : cs[i]? with
        | none => simp [h] at hp
        | some c =>
          have hi : i < cs.length := (List.getElem?_eq_some.1 h).1
          rw [List.getElem?_append_left hi, h]
          simpa [h] using hp
  | cons j q ih =>
    intro p n e hp hpq
    cases p with
    | nil => exact absurd (List.nil_prefix) hpq
    | cons i p =>
      cases n with
      | text d => simp [nodeAt] at hp
      | comment d => simp [nodeAt] at hp
      | element t a cs =>
        simp only [modifyAt, nodeAt] at hp ⊢
        by_cases hij : j = i
        · subst hij
          rw [List.getElem?_modify_eq]
          cases h : cs[j]? with
          | none => simp [h] at hp
          | some c =>
            simp only [h, Option.some_bind, Option.map_some'] at hp ⊢
            exact ih p c e hp fun hpre => hpq (List.cons_prefix_cons.2 ⟨rfl, hpre⟩)
        · rw [List.getElem?_modify_ne _ _ hij]
          exact hp

theorem stripPrefix_eq_some (p q r : List Nat) (h : stripPrefix p q = some r) : q = p ++ r := by
  unfold stripPrefix at h
  split at h
  · rename_i hpre
    obtain ⟨t, rfl⟩ := hpre
    simp at h
    rw [h]
  · simp at h

theorem stripPrefix_eq_none (p q : List Nat) (h : stripPrefix p q = none) : ¬ p <+: q := by
  unfold stripPrefix at h
  split at h
  · simp at h
  · assumption

/-- The node at `p` after a sequence of edits that keep children in place is
the node that was at `p`, changed by the edits that fall below `p`. -/
theorem nodeAt_applyEdits (p : List Nat) :
    ∀ (edits : List (List Nat × (Node → Node))) (root e : Node),
      (∀ x ∈ edits, KeepsChildren x.2) → nodeAt p root = some e →
      nodeAt p (applyEdits edits root) = some (applyEdits (editsBelow p edits) e) := by
  intro edits
  induction edits with
  | nil => intro root e _ hp; exact hp
  | cons x rest ih =>
    intro root e hk hp
    have hrest : ∀ y ∈ rest, KeepsChildren y.2 := fun y hy => hk y (List.mem_cons_of_mem _ hy)
    show nodeAt p (applyEdits rest (modifyAt x.2 x.1 root)) = _
    cases hs : stripPrefix p x.1 with
    | none =>
      have h1 := nodeAt_modifyAt_other x.2 (hk x (List.mem_cons_self _ _)) x.1 p root e hp
        (stripPrefix_eq_none _ _ hs)
      rw [ih _ e hrest h1]
      simp [editsBelow, List.filterMap_cons, hs]
    | some r =>
      have hx := stripPrefix_eq_some _ _ _ hs
      have h1 : nodeAt p (modifyAt x.2 x.1 root) = some (modifyAt x.2 r e) := by
        rw [hx, nodeAt_modifyAt_below, hp]; rfl
      rw [ih _ _ hrest h1]
      simp [editsBelow, List.filterMap_cons, hs, applyEdits]

theorem forEachAt_eq_applyEdits (body : List Nat → Node → Node) (data : List (List Nat))
    (root : Node) : forEachAt body data root = applyEdits (data.map fun p => (p, body p)) root := by
  unfold forEachAt applyEdits
  rw [List.foldl_map]

/-! ## The overlay of a flagged element -/

theorem modify_append_left {α : Type} (g : α → α) (l2 : List α) :
    ∀ (l1 : List α) (i : Nat), i < l1.length → (l1 ++ l2).modify g i = l1.modify g i ++ l2 := by
  intro l1
  induction l1 with
  | nil => intro i hi; simp at hi
  | cons x xs ih =>
    intro i hi
    cases i with
    | zero => simp
    | succ i =>
      simp only [List.cons_append, List.modify_succ_cons]
      rw [ih i (by simpa using hi)]

theorem mem_modify {α : Type} (g : α → α) (c : α) :
    ∀ (l : List α) (i : Nat), c ∈ l.modify g i → c ∈ l ∨ ∃ c0 ∈ l, c = g c0 := by
  intro l
  induction l with
  | nil => intro i h; simp at h
  | cons x xs ih =>
    intro i h
    cases i with
    | zero =>
      simp only [List.modify_zero_cons, List.mem_cons] at h
      rcases h with h | h
      · exact Or.inr ⟨x, List.mem_cons_self _ _, h⟩
      · exact Or.inl (List.mem_cons_of_mem _ h)
    | succ i =>
      simp only [List.modify_succ_cons, List.mem_cons] at h
      rcases h with h | h
      · exact Or.inl (h ▸ List.mem_cons_self _ _)
      · rcases ih i h with h' | ⟨c0, hc0, h'⟩
        · exact Or.inl (List.mem_cons_of_mem _ h')
        · exact Or.inr ⟨c0, List.mem_cons_of_mem _ hc0, h'⟩

theorem hasClass_appendChild (cls : String) (n child : Node) :
    (n.appendChild child).hasClass cls = n.hasClass cls := by
  cases n <;> rfl

theorem hasClass_modifyAt (cls : String) (f : Node → Node)
    (hf : ∀ n, (f n).hasClass cls = n.hasClass cls) (r : List Nat) (n : Node) :
    (modifyAt f r n).hasClass cls = n.hasClass cls := by
  cases r with
  | nil => exact hf n
  | cons i r => cases n <;> rfl

/-- Edits below the children that an element has leave the element with as
many children, none of which gains the class, and with what had been appended
after them. -/
theorem applyEdits_children (cls : String) (t : String) (a : List (String × String))
    (extra : List Node) :
    ∀ (edits : List (List Nat × (Node → Node))) (kids : List Node),
      (∀ x ∈ edits, ∃ i r, x.1 = i :: r ∧ i < kids.length) →
      (∀ x ∈ edits, ∀ n, (x.2 n).hasClass cls = n.hasClass cls) →
      (∀ c ∈ kids, c.hasClass cls = false) →
      ∃ kids', applyEdits edits (.element t a (kids ++ extra)) = .element t a (kids' ++ extra) ∧
        kids'.length = kids.length ∧ ∀ c ∈ kids', c.hasClass cls = false := by
  intro edits
  induction edits with
  | nil => intro kids _ _ hk; exact ⟨kids, rfl, rfl, hk⟩
  | cons x rest ih =>
    intro kids hpath hcls hk
    obtain ⟨i, r, hx, hi⟩ := hpath x (List.mem_cons_self _ _)
    have hstep : modifyAt x.2 x.1 (.element t a (kids ++ extra))
        = .element t a (kids.modify (modifyAt x.2 r) i ++ extra) := by
      rw [hx, modifyAt, modify_append_left _ _ _ _ hi]
    have hk1 : ∀ c ∈ kids.modify (modifyAt x.2 r) i, c.hasClass cls = false := by
      intro c hc
      rcases mem_modify _ _ _ _ hc with h | ⟨c0, hc0, h⟩
      · exact hk c h
      · rw [h, hasClass_modifyAt cls x.2 (hcls x (List.mem_cons_self _ _))]
        exact hk c0 hc0
    obtain ⟨kids', h1, h2, h3⟩ := ih (kids.modify (modifyAt x.2 r) i)
      (fun y hy => by
        obtain ⟨j, s, hy1, hy2⟩ := hpath y (List.mem_cons_of_mem _ hy)
        exact ⟨j, s, hy1, by simpa using hy2⟩)
      (fun y hy => hcls y (List.mem_cons_of_mem _ hy)) hk1
    refine ⟨kids', ?_, by simpa using h2, h3⟩
    show applyEdits rest (modifyAt x.2 x.1 _) = _
    rw [hstep, h1]

theorem applyEdits_append (e1 e2 : List (List Nat × (Node → Node))) (root : Node) :
    applyEdits (e1 ++ e2) root = applyEdits e2 (applyEdits e1 root) := by
  unfold applyEdits
  rw [List.foldl_append]

/-- The overlay built for an element depends on its attributes only. -/
theorem buildOverlay_children (parseFragment : String → List Node) (t : String)
    (a : List (String × String)) (cs cs' : List Node) :
    buildOverlay parseFragment (.element t a cs) = buildOverlay parseFragment (.element t a cs') :=
  rfl

theorem buildOverlay_hasClass (parseFragment : String → List Node) (elm : Node) :
    (buildOverlay parseFragment elm).hasClass "tridion__overlay" = true := by
  rfl

theorem editsBelow_append (p : List Nat) (e1 e2 : List (List Nat × (Node → Node))) :
    editsBelow p (e1 ++ e2) = editsBelow p e1 ++ editsBelow p e2 := by
  unfold editsBelow
  rw [List.filterMap_append]

theorem stripPrefix_self (p : List Nat) : stripPrefix p p = some [] := by
  simp [stripPrefix]

theorem stripPrefix_ne_nil (p q r : List Nat) (hq : q ≠ p) (h : stripPrefix p q = some r) :
    r ≠ [] := by
  intro hr
  have := stripPrefix_eq_some p q r h
  rw [hr, List.append_nil] at this
  exact hq this

/-- The body of the loop of `showTridionElements`. -/
theorem appendOverlay_keepsChildren (parseFragment : String → List Node) :
    KeepsChildren fun elm => elm.appendChild (buildOverlay parseFragment elm) :=
  fun t a cs => ⟨a, [buildOverlay parseFragment (.element t a cs)], rfl⟩

theorem appendTmp_keepsChildren : KeepsChildren fun body => body.appendChild createTmp :=
  fun _ a _ => ⟨a, [createTmp], rfl⟩

theorem showTridionElements_root (parseFragment : String → List Node) (data : List (List Nat))
    (page : Page) :
    (showTridionElements parseFragment data page).root =
      applyEdits (data.map fun p => (p, fun elm => elm.appendChild (buildOverlay parseFragment elm)))
        (modifyAt (fun body => body.appendChild createTmp) page.body page.root) := by
  unfold showTridionElements
  simp only
  rw [forEachAt_eq_applyEdits]

/-- The node at `p` after the textarea has been appended to the body. -/
theorem nodeAt_appendTmp (cls : String) (hcls : createTmp.hasClass cls = false) (body p : List Nat)
    (root : Node) (t : String) (a : List (String × String)) (cs : List Node)
    (hp : nodeAt p root = some (.element t a cs)) (hcs : ∀ c ∈ cs, c.hasClass cls = false) :
    ∃ kids0, nodeAt p (modifyAt (fun b => b.appendChild createTmp) body root)
        = some (.element t a kids0) ∧ cs.length ≤ kids0.length ∧
      ∀ c ∈ kids0, c.hasClass cls = false := by
  have h := nodeAt_applyEdits p [(body, fun b => b.appendChild createTmp)] root _
    (fun x hx => by
      rw [List.mem_singleton] at hx
      rw [hx]
      exact appendTmp_keepsChildren) hp
  have h0 : applyEdits [(body, fun b : Node => b.appendChild createTmp)] root
      = modifyAt (fun b => b.appendChild createTmp) body root := rfl
  rw [h0] at h
  rw [h]
  cases hs : stripPrefix p body with
  | none =>
    refine ⟨cs, ?_, le_refl _, hcs⟩
    simp [editsBelow, hs, applyEdits]
  | some r =>
    cases r with
    | nil =>
      refine ⟨cs ++ [createTmp], ?_, by simp, ?_⟩
      · simp [editsBelow, hs, applyEdits, modifyAt, Node.appendChild]
      · intro c hc
        rcases List.mem_append.1 hc with h1 | h1
        · exact hcs c h1
        · rw [List.mem_singleton] at h1
          rw [h1]
          exact hcls
    | cons i r =>
      refine ⟨cs.modify (modifyAt (fun b => b.appendChild createTmp) r) i, ?_, by simp, ?_⟩
      · simp [editsBelow, hs, applyEdits, modifyAt]
      · intro c hc
        rcases mem_modify _ _ _ _ hc with h1 | ⟨c0, hc0, h1⟩
        · exact hcs c h1
        · rw [h1, hasClass_modifyAt cls _ (fun n => hasClass_appendChild cls n _)]
          exact hcs c0 hc0

/-- The edits of the loop that fall below `p`, for a collection that does not
hold `p` itself: they go into children that the element at `p` has. -/
theorem editsBelow_inner (parseFragment : String → List Node) (cls : String) (p : List Nat)
    (root : Node) (t : String) (a : List (String × String)) (cs : List Node)
    (hp : nodeAt p root = some (.element t a cs)) (data : List (List Nat)) (hnot : p ∉ data)
    (hvalid : ∀ q ∈ data, (nodeAt q root).isSome) :
    (∀ x ∈ editsBelow p
        (data.map fun q => (q, fun elm : Node => elm.appendChild (buildOverlay parseFragment elm))),
      ∃ i r, x.1 = i :: r ∧ i < cs.length) ∧
    (∀ x ∈ editsBelow p
        (data.map fun q => (q, fun elm : Node => elm.appendChild (buildOverlay parseFragment elm))),
      ∀ n, (x.2 n).hasClass cls = n.hasClass cls) := by
  constructor
  · intro x hx
    simp only [editsBelow, List.mem_filterMap, List.mem_map] at hx
    obtain ⟨y, ⟨q, hq, rfl⟩, hy⟩ := hx
    cases hs : stripPrefix p q with
    | none => simp [hs] at hy
    | some r =>
      simp only [hs, Option.map_some', Option.some.injEq] at hy
      subst hy
      have hne := stripPrefix_ne_nil p q r (fun h => hnot (h ▸ hq)) hs
      cases r with
      | nil => exact absurd rfl hne
      | cons i r =>
        refine ⟨i, r, rfl, ?_⟩
        have hq' := stripPrefix_eq_some p q _ hs
        have hv := hvalid q hq
        rw [hq', nodeAt_append, hp] at hv
        simp only [Option.some_bind, nodeAt] at hv
        by_contra hge
        rw [List.getElem?_eq_none (by omega)] at hv
        simp at hv
  · intro x hx n
    simp only [editsBelow, List.mem_filterMap, List.mem_map] at hx
    obtain ⟨y, ⟨q, _, rfl⟩, hy⟩ := hx
    cases hs : stripPrefix p q with
    | none => simp [hs] at hy
    | some r =>
      simp only [hs, Option.map_some', Option.some.injEq] at hy
      subst hy
      exact hasClass_appendChild cls n _

/-- The element at a path of the collection after `showTridionElements`: its
children of before, none of them an overlay, followed by the overlay built for
it. -/
theorem showTridionElements_nodeAt (parseFragment : String → List Node) (page : Page)
    (data : List (List Nat)) (hnodup : data.Nodup)
    (hvalid : ∀ q ∈ data, (nodeAt q page.root).isSome)
    (p : List Nat) (hmem : p ∈ data) (t : String) (a : List (String × String)) (cs : List Node)
    (hp : nodeAt p page.root = some (.element t a cs))
    (hcs : ∀ c ∈ cs, c.hasClass "tridion__overlay" = false) :
    ∃ kids, nodeAt p (showTridionElements parseFragment data page).root
        = some (.element t a (kids ++ [buildOverlay parseFragment (.element t a cs)])) ∧
      cs.length ≤ kids.length ∧ ∀ c ∈ kids, c.hasClass "tridion__overlay" = false := by
  obtain ⟨d1, d2, rfl⟩ := List.append_of_mem hmem
  have hn1 : p ∉ d1 := fun h => by
    have := (List.nodup_append.1 hnodup).2.2
    exact this h (List.mem_cons_self _ _)
  have hn2 : p ∉ d2 := (List.nodup_cons.1 (List.nodup_append.1 hnodup).2.1).1
  obtain ⟨kids0, h0, hlen0, hk0⟩ := nodeAt_appendTmp "tridion__overlay" (by decide) page.body p
    page.root t a cs hp hcs
  have hkeep : ∀ x ∈ (d1 ++ p :: d2).map fun q =>
      (q, fun elm : Node => elm.appendChild (buildOverlay parseFragment elm)),
      KeepsChildren x.2 := by
    intro x hx
    obtain ⟨q, _, rfl⟩ := List.mem_map.1 hx
    exact appendOverlay_keepsChildren parseFragment
  rw [showTridionElements_root, nodeAt_applyEdits p _ _ _ hkeep h0, List.map_append,
    List.map_cons, editsBelow_append, applyEdits_append,
    show ∀ (x : List Nat × (Node → Node)) (l : List (List Nat × (Node → Node))),
      editsBelow p (x :: l) = editsBelow p [x] ++ editsBelow p l from
      fun x l => editsBelow_append p [x] l,
    applyEdits_append]
  obtain ⟨hpath1, hcls1⟩ := editsBelow_inner parseFragment "tridion__overlay" p page.root t a cs hp
    d1 hn1 (fun q hq => hvalid q (List.mem_append_left _ hq))
  obtain ⟨hpath2, hcls2⟩ := editsBelow_inner parseFragment "tridion__overlay" p page.root t a cs hp
    d2 hn2 (fun q hq => hvalid q (List.mem_append_right _ (List.mem_cons_of_mem _ hq)))
  obtain ⟨kids1, e1, len1, hk1⟩ := applyEdits_children "tridion__overlay" t a [] _ kids0
    (fun x hx => by
      obtain ⟨i, r, h1, h2⟩ := hpath1 x hx
      exact ⟨i, r, h1, by omega⟩) hcls1 hk0
  simp only [List.append_nil] at e1
  have hmid : applyEdits (editsBelow p
      [(p, fun elm : Node => elm.appendChild (buildOverlay parseFragment elm))])
      (.element t a (kids1 ++ []))
      = .element t a (kids1 ++ [buildOverlay parseFragment (.element t a cs)]) := by
    simp [editsBelow, stripPrefix_self, applyEdits, modifyAt, Node.appendChild,
      buildOverlay_children parseFragment t a kids1 cs]
  obtain ⟨kids2, e2, len2, hk2⟩ := applyEdits_children "tridion__overlay" t a
    [buildOverlay parseFragment (.element t a cs)] _ kids1
    (fun x hx => by
      obtain ⟨i, r, h1, h2⟩ := hpath2 x hx
      exact ⟨i, r, h1, by omega⟩) hcls2 hk1
  simp only [List.append_nil] at hmid
  rw [e1, hmid, e2]
  exact ⟨kids2, rfl, by omega, hk2⟩

/-! ## What the overlay contains -/

theorem querySelectorAllFrom_length (sel : Node → Bool) : ∀ (xs : List Node) (k : Nat),
    (querySelectorAllFrom sel k xs).length
      = (xs.map fun c => (querySelectorAll sel c).length).sum := by
  intro xs
  induction xs with
  | nil => intro k; simp [querySelectorAllFrom]
  | cons c cs ih => intro k; simp [querySelectorAllFrom, ih]

theorem countInNodes_append (cls : String) (xs ys : List Node) :
    countInNodes cls (xs ++ ys) = countInNodes cls xs + countInNodes cls ys := by
  simp [countInNodes, querySelectorAllFrom_length]

theorem countInNodes_cons (cls : String) (x : Node) (ys : List Node) :
    countInNodes cls (x :: ys) = countInNodes cls [x] + countInNodes cls ys :=
  countInNodes_append cls [x] ys

theorem countInNodes_element (cls : String) (t : String) (a : List (String × String))
    (cs : List Node) :
    countInNodes cls [.element t a cs]
      = (if (Node.element t a cs).hasClass cls then 1 else 0) + countInNodes cls cs := by
  simp only [countInNodes, querySelectorAllFrom_length, List.map_cons, List.map_nil, List.sum_cons,
    List.sum_nil, Nat.add_zero, querySelectorAll, List.length_append]
  split <;> simp

/-- The link of the info panel carries no class. -/
theorem countInNodes_createLink (cls : String) (id : Option String) :
    countInNodes cls [createLink id] = 0 := by
  unfold createLink
  rw [countInNodes_element]
  have h1 : (Node.element "a"
      [("href", "http://www.epublishmerck.com/WebUI/item.aspx?tcm=16#id=tcm:" ++ jsString id),
        ("target", "_blank")] (textChildren ("COPY: " ++ jsString id))).hasClass cls = false := by
    simp [Node.hasClass, Node.classTokens, Node.getAttribute, Node.attrs, List.lookup]
  rw [h1]
  simp only [Bool.false_eq_true, if_false, Nat.zero_add]
  unfold textChildren
  split
  · rfl
  · simp [countInNodes, querySelectorAllFrom, querySelectorAll]

/-- The elements of a class in an overlay: those of the overlay built without
the markup of the info panel, and those that the parser made of that markup. -/
theorem countByClass_buildOverlay (parseFragment : String → List Node) (cls : String)
    (elm : Node) :
    countByClass cls (buildOverlay parseFragment elm)
      = countInNodes cls
          (createLines ++
            [createNotificationOverlay "COPIED",
              .element "div" [("class", selectors.loader)] [],
              .element "div" [("class", selectors.counter)] [],
              createInfoDiv, createtBtn])
        + countInNodes cls (parseFragment (infoMarkup elm)) := by
  simp only [countByClass, buildOverlay, createtOverlay, updateElementInfo, createInfoDiv,
    Node.appendChild, Node.children]
  simp only [countInNodes_append, countInNodes_cons cls _ (_ :: _), countInNodes_element,
    countInNodes_createLink]
  have h0 : countInNodes cls [] = 0 := rfl
  simp only [h0]
  have hinfo : ∀ cs cs', (Node.element "div" [("class", selectors.info)] cs).hasClass cls
      = (Node.element "div" [("class", selectors.info)] cs').hasClass cls := fun _ _ => rfl
  rw [hinfo (parseFragment (infoMarkup elm) ++ _) []]
  omega

/-- Counterexample to C6: the flagged element of `injectedPage` carries no
overlay, its `data-name` holds the markup `<i class="tridion__btn"></i>`, which
`innerHTML` turns into an element of the info panel; after
`showTridionElements` the overlay (the child `0` of the element) contains two
elements of class `tridion__btn`, not one. And a collection that holds the
element of `samplePage` twice leaves it with two overlay children. -/
theorem showTridionElements_injected_button :
    querySelectorAll isTridion injectedPage.root = [[0]] ∧
    (nodeAt [0] injectedPage.root).map Node.children = some [] ∧
    (nodeAt [0, 0] (showTridionElements injectedParser [[0]] injectedPage).root).map
      (Node.hasClass "tridion__overlay") = some true ∧
    (nodeAt [0, 0] (showTridionElements injectedParser [[0]] injectedPage).root).map
      (countByClass "tridion__btn") = some 2 ∧
    (nodeAt [0] (showTridionElements (fun s => [.text s]) [[0], [0]] samplePage).root).map
      (fun n => (n.children.filter (Node.hasClass "tridion__overlay")).length) = some 2 := by
  refine ⟨by decide, rfl, by decide, by decide, by decide⟩

/-- C6 as amended: for a collection without repetition of elements that have
no overlay child, after `showTridionElements` each of them has the children it
had (none an overlay), followed by exactly one overlay as its last child; the
overlay contains the one button, one info panel, one loader, one counter and
four border lines (one of each of `tridion__line--0` .. `tridion__line--3`)
that the tool builds, and beyond them the elements of these classes that the
HTML parser makes of the markup put into the info panel. -/
theorem showTridionElements_overlay (parseFragment : String → List Node) (page : Page)
    (data : List (List Nat)) (hnodup : data.Nodup)
    (hdata : ∀ p ∈ data, ∃ t a cs, nodeAt p page.root = some (.element t a cs) ∧
      ∀ c ∈ cs, c.hasClass "tridion__overlay" = false) :
    ∀ p ∈ data, ∃ elm t a kids overlay,
      nodeAt p page.root = some elm ∧
      nodeAt p (showTridionElements parseFragment data page).root
        = some (.element t a (kids ++ [overlay])) ∧
      (∀ c ∈ kids, c.hasClass "tridion__overlay" = false) ∧
      overlay.hasClass "tridion__overlay" = true ∧
      overlay = buildOverlay parseFragment elm ∧
      countByClass "tridion__btn" overlay
        = 1 + countInNodes "tridion__btn" (parseFragment (infoMarkup elm)) ∧
      countByClass "tridion__info" overlay
        = 1 + countInNodes "tridion__info" (parseFragment (infoMarkup elm)) ∧
      countByClass "tridion__loader" overlay
        = 1 + countInNodes "tridion__loader" (parseFragment (infoMarkup elm)) ∧
      countByClass "tridion__counter" overlay
        = 1 + countInNodes "tridion__counter" (parseFragment (infoMarkup elm)) ∧
      countByClass "tridion__line" overlay
        = 4 + countInNodes "tridion__line" (parseFragment (infoMarkup elm)) ∧
      countByClass "tridion__line--0" overlay
        = 1 + countInNodes "tridion__line--0" (parseFragment (infoMarkup elm)) ∧
      countByClass "tridion__line--1" overlay
        = 1 + countInNodes "tridion__line--1" (parseFragment (infoMarkup elm)) ∧
      countByClass "tridion__line--2" overlay
        = 1 + countInNodes "tridion__line--2" (parseFragment (infoMarkup elm)) ∧
      countByClass "tridion__line--3" overlay
        = 1 + countInNodes "tridion__line--3" (parseFragment (infoMarkup elm)) := by
  intro p hp
  obtain ⟨t, a, cs, hnode, hcs⟩ := hdata p hp
  have hvalid : ∀ q ∈ data, (nodeAt q page.root).isSome := by
    intro q hq
    obtain ⟨t', a', cs', h, _⟩ := hdata q hq
    rw [h]; rfl
  obtain ⟨kids, hshow, _, hkids⟩ :=
    showTridionElements_nodeAt parseFragment page data hnodup hvalid p hp t a cs hnode hcs
  refine ⟨.element t a cs, t, a, kids, _, hnode, hshow, hkids, buildOverlay_hasClass _ _, rfl,
    ?_, ?_, ?_, ?_, ?_, ?_, ?_, ?_, ?_⟩ <;>
  · rw [countByClass_buildOverlay]
    congr 1

/-- Witness of C6 as amended: the sample page and its one flagged element. -/
theorem showTridionElements_overlay_witness :
    [([0] : List Nat)].Nodup ∧
    (∀ p ∈ [([0] : List Nat)], ∃ t a cs, nodeAt p samplePage.root = some (.element t a cs) ∧
      ∀ c ∈ cs, c.hasClass "tridion__overlay" = false) ∧
    ∃ elm t a kids overlay,
      nodeAt [0] samplePage.root = some elm ∧
      nodeAt [0] (showTridionElements (fun s => [.text s]) [[0]] samplePage).root
        = some (.element t a (kids ++ [overlay])) ∧
      (∀ c ∈ kids, c.hasClass "tridion__overlay" = false) ∧
      overlay.hasClass "tridion__overlay" = true ∧
      countByClass "tridion__btn" overlay
        = 1 + countInNodes "tridion__btn" [.text (infoMarkup elm)] := by
  have hd : ∀ p ∈ [([0] : List Nat)], ∃ t a cs,
      nodeAt p samplePage.root = some (.element t a cs) ∧
      ∀ c ∈ cs, c.hasClass "tridion__overlay" = false := by
    intro p hp
    rw [List.mem_singleton] at hp
    subst hp
    exact ⟨"div", [("data-tridion", "1")], [.text "hello"], rfl, by
      intro c hc
      rw [List.mem_singleton] at hc
      subst hc
      rfl⟩
  refine ⟨by decide, hd, ?_⟩
  obtain ⟨elm, t, a, kids, overlay, h1, h2, h3, h4, _, h6, _⟩ :=
    showTridionElements_overlay (fun s => [.text s]) samplePage [[0]] (by decide) hd [0]
      (List.mem_singleton.2 rfl)
  exact ⟨elm, t, a, kids, overlay, h1, h2, h3, h4, h6⟩

/-! ## The collection of `findTridionElements` -/

theorem stripPrefix_nil (q : List Nat) : stripPrefix [] q = some q := by
  simp [stripPrefix]

theorem stripPrefix_cons_cons (i k : Nat) (p q : List Nat) :
    stripPrefix (i :: p) (k :: q) = if k = i then stripPrefix p q else none := by
  unfold stripPrefix
  by_cases h : k = i
  · subst h
    simp [List.cons_prefix_cons]
  · have : ¬ (i :: p) <+: (k :: q) := fun hpre => h (List.cons_prefix_cons.1 hpre).1.symm
    simp [h, this]

theorem stripPrefix_cons_nil (i : Nat) (p : List Nat) : stripPrefix (i :: p) [] = none := by
  simp [stripPrefix]

theorem filterMap_stripPrefix_map_cons (i k : Nat) (p : List Nat) (l : List (List Nat)) :
    (l.map fun q => k :: q).filterMap (stripPrefix (i :: p))
      = if k = i then l.filterMap (stripPrefix p) else [] := by
  rw [List.filterMap_map]
  by_cases h : k = i
  · simp only [h, if_true]
    congr 1
    funext q
    simp [stripPrefix_cons_cons]
  · simp only [h, if_false]
    rw [List.filterMap_eq_nil_iff]
    intro q _
    simp [stripPrefix_cons_cons, h]

/-- The matches below the child `i`, among the matches in a list of children
whose first has index `k`. -/
theorem querySelectorAllFrom_below (sel : Node → Bool) (i : Nat) (p : List Nat) :
    ∀ (cs : List Node) (k : Nat),
      (querySelectorAllFrom sel k cs).filterMap (stripPrefix (i :: p))
        = if k ≤ i then
            match cs[i - k]? with
            | some c => (querySelectorAll sel c).filterMap (stripPrefix p)
            | none => []
          else [] := by
  intro cs
  induction cs with
  | nil => intro k; simp [querySelectorAllFrom]
  | cons c cs ih =>
    intro k
    rw [querySelectorAllFrom, List.filterMap_append, filterMap_stripPrefix_map_cons, ih]
    by_cases hlt : k < i
    · have h1 : k ≠ i := by omega
      have h2 : k + 1 ≤ i := by omega
      have h3 : k ≤ i := by omega
      have h4 : i - k = (i - (k + 1)) + 1 := by omega
      simp only [h1, h2, h3, if_true, if_false, List.nil_append]
      rw [h4, List.getElem?_cons_succ]
    · by_cases heq : k = i
      · subst heq
        simp
      · have h2 : ¬ k + 1 ≤ i := by omega
        have h3 : ¬ k ≤ i := by omega
        simp [heq, h2, h3]

/-- The matches below the node at `p`, seen from that node, are the matches of
a query on that node. -/
theorem querySelectorAll_below (sel : Node → Bool) (p : List Nat) :
    ∀ (root e : Node), nodeAt p root = some e →
      (querySelectorAll sel root).filterMap (stripPrefix p) = querySelectorAll sel e := by
  induction p with
  | nil =>
    intro root e h
    simp only [nodeAt, Option.some.injEq] at h
    subst h
    have : stripPrefix [] = some := funext stripPrefix_nil
    rw [this, List.filterMap_some]
  | cons i p ih =>
    intro root e h
    cases root with
    | text d => simp [nodeAt] at h
    | comment d => simp [nodeAt] at h
    | element t a cs =>
      simp only [nodeAt] at h
      cases hc : cs[i]? with
      | none => simp [hc] at h
      | some c =>
        simp only [hc, Option.some_bind] at h
        rw [querySelectorAll, List.filterMap_append, querySelectorAllFrom_below]
        have h0 : (if sel (Node.element t a cs) = true then [[]] else []).filterMap
            (stripPrefix (i :: p)) = [] := by
          split <;> simp [stripPrefix_cons_nil]
        simp only [h0, List.nil_append, Nat.zero_le, if_true, Nat.sub_zero, hc]
        exact ih c e h

theorem editsBelow_map (p : List Nat) (body : List Nat → Node → Node) (data : List (List Nat)) :
    editsBelow p (data.map fun q => (q, body q))
      = (data.filterMap (stripPrefix p)).map fun r => (r, body (p ++ r)) := by
  induction data with
  | nil => rfl
  | cons q rest ih =>
    simp only [List.map_cons, List.filterMap_cons]
    have hc : editsBelow p ((q, body q) :: rest.map fun q => (q, body q))
        = editsBelow p [(q, body q)] ++ editsBelow p (rest.map fun q => (q, body q)) :=
      editsBelow_append p [_] _
    rw [hc, ih]
    cases hs : stripPrefix p q with
    | none => simp [editsBelow, hs]
    | some r =>
      have hq := stripPrefix_eq_some p q r hs
      simp only [editsBelow, List.filterMap_cons, List.filterMap_nil, hs, Option.map_some',
        List.singleton_append, List.map_cons]
      rw [← hq]

/-! ## Class lists -/

theorem splitTokens_append (s : List Char) (hs : ∀ c ∈ s, isAsciiWhitespace c = false) :
    ∀ (rest cur : List Char), splitTokens (s ++ rest) cur = splitTokens rest (cur ++ s) := by
  induction s with
  | nil => intro rest cur; simp
  | cons c s ih =>
    intro rest cur
    have hc := hs c (List.mem_cons_self _ _)
    rw [List.cons_append, splitTokens]
    simp only [hc, Bool.false_eq_true, if_false]
    rw [ih (fun d hd => hs d (List.mem_cons_of_mem _ hd))]
    simp

theorem splitTokens_joinTokens : ∀ (toks : List (List Char)) (a cur : List Char),
    ValidToken a → (∀ t ∈ toks, ValidToken t) →
    splitTokens (joinTokens (a :: toks)) cur = (cur ++ a) :: toks := by
  intro toks
  induction toks with
  | nil =>
    intro a cur ha _
    have h := splitTokens_append a ha.2 [] cur
    rw [List.append_nil] at h
    rw [joinTokens, h, splitTokens]
    have : cur ++ a ≠ [] := by
      intro h0
      exact ha.1 (List.append_eq_nil.1 h0).2
    simp [this]
  | cons b toks ih =>
    intro a cur ha htoks
    have : cur ++ a ≠ [] := by
      intro h0
      exact ha.1 (List.append_eq_nil.1 h0).2
    rw [joinTokens, splitTokens_append a ha.2, splitTokens]
    have hsp : isAsciiWhitespace ' ' = true := by decide
    simp only [hsp, if_true, this, if_false]
    rw [ih b [] (htoks b (List.mem_cons_self _ _))
      (fun t ht => htoks t (List.mem_cons_of_mem _ ht))]
    simp

theorem splitTokens_joinTokens_nil (toks : List (List Char)) (h : ∀ t ∈ toks, ValidToken t) :
    splitTokens (joinTokens toks) [] = toks := by
  cases toks with
  | nil => rfl
  | cons a toks =>
    rw [splitTokens_joinTokens toks a [] (h a (List.mem_cons_self _ _))
      (fun t ht => h t (List.mem_cons_of_mem _ ht))]
    simp

theorem splitTokens_valid : ∀ (s cur : List Char), (∀ c ∈ cur, isAsciiWhitespace c = false) →
    ∀ tok ∈ splitTokens s cur, ValidToken tok := by
  intro s
  induction s with
  | nil =>
    intro cur hcur tok htok
    rw [splitTokens] at htok
    split at htok
    · simp at htok
    · rename_i hne
      rw [List.mem_singleton] at htok
      subst htok
      exact ⟨hne, hcur⟩
  | cons c s ih =>
    intro cur hcur tok htok
    rw [splitTokens] at htok
    split at htok
    · split at htok
      · exact ih [] (by simp) tok htok
      · rename_i hne
        rcases List.mem_cons.1 htok with h | h
        · subst h; exact ⟨hne, hcur⟩
        · exact ih [] (by simp) tok h
    · rename_i hc
      refine ih (cur ++ [c]) ?_ tok htok
      intro d hd
      rcases List.mem_append.1 hd with h | h
      · exact hcur d h
      · rw [List.mem_singleton] at h
        subst h
        simpa using hc

theorem foldl_classListAdd_subset (l : List String) : ∀ acc : List String,
    ∀ x ∈ l.foldl classListAdd acc, x ∈ acc ∨ x ∈ l := by
  induction l with
  | nil => intro acc x hx; exact Or.inl hx
  | cons y l ih =>
    intro acc x hx
    rcases ih _ x hx with h | h
    · unfold classListAdd at h
      split at h
      · exact Or.inl h
      · rcases List.mem_append.1 h with h' | h'
        · exact Or.inl h'
        · rw [List.mem_singleton] at h'
          exact Or.inr (h' ▸ List.mem_cons_self _ _)
    · exact Or.inr (List.mem_cons_of_mem _ h)

theorem classListAdd_nodup (acc : List String) (x : String) (h : acc.Nodup) :
    (classListAdd acc x).Nodup := by
  unfold classListAdd
  split
  · exact h
  · rename_i hx
    rw [List.nodup_append]
    refine ⟨h, List.nodup_singleton _, ?_⟩
    intro a ha hb
    rw [List.mem_singleton] at hb
    exact hx (hb ▸ ha)

theorem foldl_classListAdd_nodup (l : List String) : ∀ acc : List String, acc.Nodup →
    (l.foldl classListAdd acc).Nodup := by
  induction l with
  | nil => intro acc h; exact h
  | cons y l ih => intro acc h; exact ih _ (classListAdd_nodup acc y h)

theorem foldl_classListAdd_of_nodup (l : List String) : ∀ acc : List String,
    (acc ++ l).Nodup → l.foldl classListAdd acc = acc ++ l := by
  induction l with
  | nil => intro acc _; simp
  | cons y l ih =>
    intro acc h
    have hy : y ∉ acc := by
      intro hy
      have := (List.nodup_append.1 h).2.2
      exact this hy (List.mem_cons_self _ _)
    have hstep : classListAdd acc y = acc ++ [y] := by
      unfold classListAdd
      rw [if_neg hy]
    rw [List.foldl_cons, hstep, ih (acc ++ [y]) (by simpa using h)]
    simp

theorem parseTokenSet_valid (value : String) : ValidTokenSet (parseTokenSet value) := by
  unfold parseTokenSet
  refine ⟨foldl_classListAdd_nodup _ _ List.nodup_nil, ?_⟩
  intro t ht
  rcases foldl_classListAdd_subset _ _ t ht with h | h
  · simp at h
  · obtain ⟨tok, htok, rfl⟩ := List.mem_map.1 h
    exact splitTokens_valid _ [] (by simp) tok htok

/-- Parsing what the serializer wrote gives the token set back. -/
theorem parseTokenSet_serializeTokenSet (tokens : List String) (h : ValidTokenSet tokens) :
    parseTokenSet (serializeTokenSet tokens) = tokens := by
  unfold parseTokenSet serializeTokenSet
  have h1 : (String.mk (joinTokens (tokens.map String.toList))).toList
      = joinTokens (tokens.map String.toList) := rfl
  rw [h1, splitTokens_joinTokens_nil _ (by
    intro t ht
    obtain ⟨s, hs, rfl⟩ := List.mem_map.1 ht
    exact h.2 s hs)]
  have h2 : (tokens.map String.toList).map String.mk = tokens := by
    rw [List.map_map]
    conv => rhs; rw [← List.map_id tokens]
    apply List.map_congr_left
    intro s _
    rfl
  rw [h2, foldl_classListAdd_of_nodup tokens [] (by simpa using h.1)]
  simp

theorem lookup_setAttr_self (name value : String) : ∀ a : List (String × String),
    (setAttr name value a).lookup name = some value := by
  intro a
  induction a with
  | nil => simp [setAttr, List.lookup]
  | cons kv rest ih =>
    obtain ⟨k, v⟩ := kv
    rw [setAttr]
    split
    · rename_i h
      subst h
      simp [List.lookup]
    · rename_i h
      have : (name == k) = false := by
        rw [beq_eq_false_iff_ne]
        exact fun e => h e.symm
      simp [List.lookup, this, ih]

theorem lookup_setAttr_ne (name value key : String) (hne : key ≠ name) :
    ∀ a : List (String × String), (setAttr name value a).lookup key = a.lookup key := by
  intro a
  induction a with
  | nil =>
    have : (key == name) = false := by rw [beq_eq_false_iff_ne]; exact hne
    simp [setAttr, List.lookup, this]
  | cons kv rest ih =>
    obtain ⟨k, v⟩ := kv
    rw [setAttr]
    split
    · rename_i h
      subst h
      have : (key == k) = false := by rw [beq_eq_false_iff_ne]; exact hne
      simp [List.lookup, this]
    · simp only [List.lookup]
      split
      · rfl
      · exact ih

theorem classTokens_valid (n : Node) : ValidTokenSet n.classTokens := by
  unfold Node.classTokens
  split
  · exact parseTokenSet_valid _
  · exact ⟨List.nodup_nil, by simp⟩

theorem validTokenSet_filter (tokens : List String) (f : String → Bool)
    (h : ValidTokenSet tokens) : ValidTokenSet (tokens.filter f) :=
  ⟨h.1.filter _, fun t ht => h.2 t (List.mem_filter.1 ht).1⟩

theorem validTokenSet_classListAdd (tokens : List String) (tok : String)
    (h : ValidTokenSet tokens) (htok : ValidToken tok.toList) :
    ValidTokenSet (classListAdd tokens tok) := by
  refine ⟨classListAdd_nodup _ _ h.1, ?_⟩
  intro t ht
  unfold classListAdd at ht
  split at ht
  · exact h.2 t ht
  · rcases List.mem_append.1 ht with h1 | h1
    · exact h.2 t h1
    · rw [List.mem_singleton] at h1
      rw [h1]
      exact htok

theorem classTokens_element_setAttr_class (t : String) (a : List (String × String))
    (cs : List Node) (tokens : List String) (h : ValidTokenSet tokens) :
    (Node.element t (setAttr "class" (serializeTokenSet tokens) a) cs).classTokens = tokens := by
  simp only [Node.classTokens, Node.getAttribute, Node.attrs, lookup_setAttr_self]
  exact parseTokenSet_serializeTokenSet tokens h

/-- The class list after `classList.remove(token)`. -/
theorem classTokens_classListRemove (tok : String) (n : Node) :
    (n.classListRemove tok).classTokens = n.classTokens.filter fun x => x ≠ tok := by
  cases n with
  | text d => rfl
  | comment d => rfl
  | element t a cs =>
    simp only [Node.classListRemove]
    split
    · rename_i h
      rw [h.2]
      simp [Node.classTokens, Node.getAttribute, Node.attrs, h.1]
    · exact classTokens_element_setAttr_class t a cs _
        (validTokenSet_filter _ _ (classTokens_valid _))

/-- The class list of an element after `classList.add(token)`. -/
theorem classTokens_classListAdd (tok : String) (htok : ValidToken tok.toList) (t : String)
    (a : List (String × String)) (cs : List Node) :
    ((Node.element t a cs).classListAdd tok).classTokens
      = classListAdd (Node.element t a cs).classTokens tok :=
  classTokens_element_setAttr_class t a cs _
    (validTokenSet_classListAdd _ _ (classTokens_valid _) htok)

theorem attrsOnly_comp (f g : Node → Node) (hf : AttrsOnly f) (hg : AttrsOnly g) :
    AttrsOnly fun n => g (f n) := by
  intro t a cs
  show g (f (.element t a cs)) = .element t (g (f (.element t a []))).attrs cs
  rw [hf t a cs, hf t a [], hg t _ cs, hg t _ []]
  rfl

theorem classListAdd_attrsOnly (tok : String) : AttrsOnly (Node.classListAdd tok) :=
  fun _ _ _ => rfl

theorem classListRemove_attrsOnly (tok : String) : AttrsOnly (Node.classListRemove tok) := by
  intro t a cs
  simp only [Node.classListRemove, Node.classTokens, Node.getAttribute, Node.attrs]
  split <;> rfl

theorem markElement_attrsOnly (states : List String) : AttrsOnly (markElement states) := by
  induction states with
  | nil => intro t a cs; rfl
  | cons s rest ih =>
    exact attrsOnly_comp (Node.classListAdd s) (markElement rest) (classListAdd_attrsOnly s) ih

theorem removeStateClasses_attrsOnly : AttrsOnly removeStateClasses :=
  attrsOnly_comp
    (fun n => (n.classListRemove selectors.overlaySendingData).classListRemove
      selectors.overlayActive)
    (Node.classListRemove selectors.overlayCopied)
    (attrsOnly_comp (Node.classListRemove selectors.overlaySendingData)
      (Node.classListRemove selectors.overlayActive) (classListRemove_attrsOnly _)
      (classListRemove_attrsOnly _))
    (classListRemove_attrsOnly _)

theorem setPositionRelative_element (restyle : String → String) (t : String)
    (a : List (String × String)) (cs : List Node) :
    setPositionRelative restyle (.element t a cs)
      = .element t
          (setAttr "style"
            (match a.lookup "style" with
              | none => "position: relative;"
              | some old => restyle old) a) cs := by
  simp only [setPositionRelative, Node.getAttribute, Node.attrs]
  split <;> rename_i h <;> simp [h, Node.setAttribute]

theorem removeFirstByClass_append (cls : String) (ov : Node) (hov : ov.hasClass cls = true) :
    ∀ cs : List Node, removeFirstByClass cls cs = none →
      removeFirstByClass cls (cs ++ [ov]) = some cs := by
  intro cs
  induction cs with
  | nil =>
    intro _
    simp [removeFirstByClass, hov]
  | cons c cs ih =>
    intro h
    rw [removeFirstByClass] at h
    rw [List.cons_append, removeFirstByClass]
    split at h
    · simp at h
    · rename_i hc
      rw [if_neg hc]
      split at h
      · simp at h
      · simp only [Option.map_eq_none'] at h
        simp [ih h]

/-! ## `prepareData` on a decorated element -/

theorem getAttribute_classListAdd (tok name : String) (hname : name ≠ "class") (n : Node) :
    (n.classListAdd tok).getAttribute name = n.getAttribute name := by
  cases n with
  | text d => rfl
  | comment d => rfl
  | element t a cs =>
    simp only [Node.classListAdd, Node.getAttribute, Node.attrs]
    exact lookup_setAttr_ne _ _ _ hname a

theorem getAttribute_classListRemove (tok name : String) (hname : name ≠ "class") (n : Node) :
    (n.classListRemove tok).getAttribute name = n.getAttribute name := by
  cases n with
  | text d => rfl
  | comment d => rfl
  | element t a cs =>
    simp only [Node.classListRemove]
    split
    · rfl
    · simp only [Node.getAttribute, Node.attrs]
      exact lookup_setAttr_ne _ _ _ hname a

theorem getAttribute_markElement (name : String) (hname : name ≠ "class") (states : List String) :
    ∀ n : Node, (markElement states n).getAttribute name = n.getAttribute name := by
  induction states with
  | nil => intro n; rfl
  | cons s rest ih =>
    intro n
    show (markElement rest (n.classListAdd s)).getAttribute name = _
    rw [ih, getAttribute_classListAdd s name hname]

theorem getAttribute_removeStateClasses (name : String) (hname : name ≠ "class") (n : Node) :
    (removeStateClasses n).getAttribute name = n.getAttribute name := by
  unfold removeStateClasses
  rw [getAttribute_classListRemove _ name hname, getAttribute_classListRemove _ name hname,
    getAttribute_classListRemove _ name hname]

theorem classTokens_markElement (states : List String)
    (hstates : ∀ s ∈ states, ValidToken s.toList) :
    ∀ (t : String) (a : List (String × String)) (cs : List Node),
      (markElement states (.element t a cs)).classTokens
        = states.foldl classListAdd (Node.element t a cs).classTokens := by
  induction states with
  | nil => intro t a cs; rfl
  | cons s rest ih =>
    intro t a cs
    show (markElement rest ((Node.element t a cs).classListAdd s)).classTokens = _
    rw [classListAdd_attrsOnly s t a cs, ih (fun x hx => hstates x (List.mem_cons_of_mem _ hx)),
      ← classListAdd_attrsOnly s t a cs,
      classTokens_classListAdd s (hstates s (List.mem_cons_self _ _))]
    rfl

theorem filter_classListAdd (f : String → Bool) (tokens : List String) (tok : String)
    (h : f tok = false) : (classListAdd tokens tok).filter f = tokens.filter f := by
  unfold classListAdd
  split
  · rfl
  · simp [List.filter_append, h]

theorem filter_foldl_classListAdd (f : String → Bool) (states : List String)
    (h : ∀ s ∈ states, f s = false) : ∀ tokens : List String,
    (states.foldl classListAdd tokens).filter f = tokens.filter f := by
  induction states with
  | nil => intro tokens; rfl
  | cons s rest ih =>
    intro tokens
    rw [List.foldl_cons, ih (fun x hx => h x (List.mem_cons_of_mem _ hx)),
      filter_classListAdd f tokens s (h s (List.mem_cons_self _ _))]

theorem classTokens_removeStateClasses (n : Node) :
    (removeStateClasses n).classTokens
      = n.classTokens.filter fun x =>
          x ∉ ["tridion__overlay--sending", "tridion__overlay--active", "tridion__overlay--copied"] := by
  unfold removeStateClasses
  rw [classTokens_classListRemove, classTokens_classListRemove, classTokens_classListRemove,
    List.filter_filter, List.filter_filter]
  congr 1
  funext x
  simp only [selectors, ne_eq, decide_not, List.mem_cons, List.mem_singleton, List.not_mem_nil,
    or_false, not_or, Bool.decide_and]
  cases decide (x = "tridion__overlay--sending") <;>
    cases decide (x = "tridion__overlay--active") <;>
      cases decide (x = "tridion__overlay--copied") <;> rfl

/-- The body of the loop of `findTridionElements`. -/
theorem styleBody_keepsChildren (restyle : String → String) (fixed : List Nat → Bool)
    (q : List Nat) :
    KeepsChildren fun elm => if fixed q then elm else setPositionRelative restyle elm := by
  intro t a cs
  by_cases h : fixed q = true
  · exact ⟨a, [], by simp [h]⟩
  · refine ⟨setAttr "style"
      (match a.lookup "style" with
        | none => "position: relative;"
        | some old => restyle old) a, [], ?_⟩
    simp only [h]
    rw [setPositionRelative_element]
    simp

/-- The element at `p` after a loop over the collection of
`findTridionElements`, when it is the only flagged element in its subtree:
the body of the loop has run on it once. -/
theorem nodeAt_forEach_tridion (body : List Nat → Node → Node)
    (hbody : ∀ q, KeepsChildren (body q)) (root0 root e0 e : Node) (p : List Nat)
    (hp0 : nodeAt p root0 = some e0) (hsel : querySelectorAll isTridion e0 = [[]])
    (hp : nodeAt p root = some e) :
    nodeAt p (applyEdits ((querySelectorAll isTridion root0).map fun q => (q, body q)) root)
      = some (body p e) := by
  rw [nodeAt_applyEdits p _ root e (by
    intro x hx
    obtain ⟨q, _, rfl⟩ := List.mem_map.1 hx
    exact hbody q) hp, editsBelow_map, querySelectorAll_below isTridion p root0 e0 hp0, hsel]
  simp [applyEdits, modifyAt]

/-- The decorated element: the inline position set unless the computed
position is fixed, and the overlay appended. -/
theorem displayAllBtns_nodeAt (restyle : String → String) (fixed : List Nat → Bool)
    (parseFragment : String → List Node) (page : Page) (p : List Nat) (e : Node)
    (hp : nodeAt p page.root = some e) (hsel : querySelectorAll isTridion e = [[]])
    (hbody : ¬ p <+: page.body) :
    nodeAt p (displayAllBtns restyle fixed parseFragment page).root =
      some ((if fixed p then e else setPositionRelative restyle e).appendChild
        (buildOverlay parseFragment (if fixed p then e else setPositionRelative restyle e))) := by
  have h1 : nodeAt p (findTridionElements restyle fixed page).1.root
      = some (if fixed p then e else setPositionRelative restyle e) := by
    simp only [findTridionElements]
    rw [forEachAt_eq_applyEdits]
    exact nodeAt_forEach_tridion _ (styleBody_keepsChildren restyle fixed) page.root page.root e e
      p hp hsel hp
  have h2 := nodeAt_modifyAt_other (fun b : Node => b.appendChild createTmp)
    appendTmp_keepsChildren page.body p _ _ h1 hbody
  unfold displayAllBtns
  rw [showTridionElements_root]
  exact nodeAt_forEach_tridion
    (fun _ (elm : Node) => elm.appendChild (buildOverlay parseFragment elm))
    (fun _ => appendOverlay_keepsChildren parseFragment) page.root _ e _ p hp hsel h2

set_option maxRecDepth 8000 in
/-- Counterexample to C5: the element `<div data-tridion="1">hello</div>` of
`samplePage`, decorated by `displayAllBtns`. `prepareData` on it, directly or
after `sendData` has added the sending class, does not give back its markup:
the inline position stays, and after the class was added an empty `class`
attribute stays too. On the outer element of `nestedPage` the overlay that is
removed is the one of the inner element, and the overlay of the outer element
stays in the markup. -/
theorem prepareData_keeps_inline_position :
    (nodeAt [0] samplePage.root).map outerHTML = some "<div data-tridion=\"1\">hello</div>" ∧
    ((nodeAt [0] (displayAllBtns id (fun _ => false) (fun s => [.text s]) samplePage).root).bind
        prepareData).map Prepared.data
      = some "<div data-tridion=\"1\" style=\"position: relative;\">hello</div>" ∧
    ((nodeAt [0] (displayAllBtns id (fun _ => false) (fun s => [.text s]) samplePage).root).bind
        fun elm => prepareData (markElement ["tridion__overlay--sending"] elm)).map Prepared.data
      = some "<div data-tridion=\"1\" style=\"position: relative;\" class=\"\">hello</div>" ∧
    ((nodeAt [0] (displayAllBtns id (fun _ => false) (fun _ => []) nestedPage).root).bind
        prepareData).map Prepared.data
      = some (outerHTML (.element "div" [("data-tridion", "1"), ("style", "position: relative;")]
          [.element "span" [("data-tridion", "2"), ("style", "position: relative;")] [.text "x"],
            buildOverlay (fun _ => []) (.element "div" [("data-tridion", "1")] [])])) := by
  refine ⟨by decide, by decide, by decide, by decide⟩

/-- The three state classes are tokens. -/
theorem stateClasses_valid (states : List String)
    (hstates : ∀ s ∈ states,
      s ∈ ["tridion__overlay--sending", "tridion__overlay--active", "tridion__overlay--copied"]) :
    ∀ s ∈ states, ValidToken s.toList := by
  intro s hs
  have h := hstates s hs
  simp only [List.mem_cons, List.mem_singleton, List.not_mem_nil, or_false] at h
  rcases h with rfl | rfl | rfl <;> exact ⟨by decide, by decide⟩

/-- C5 as amended: for a flagged element that is not the body nor around it,
with no flagged element and no overlay below it, decorated by `displayAllBtns`
and then given any of the three state classes, `prepareData` stores the outer
markup of the element with its children as they were before the decoration
(the overlay is gone, whatever the progress code has written into it since),
with its class list as it was less the three state classes, and with its
other attributes as they were, except `style`: the inline position written by
`findTridionElements` (when the computed position is not fixed) is still
there. -/
theorem prepareData_after_decoration (restyle : String → String) (fixed : List Nat → Bool)
    (parseFragment : String → List Node) (page : Page) (p : List Nat) (t : String)
    (a : List (String × String)) (cs : List Node) (states : List String)
    (hp : nodeAt p page.root = some (.element t a cs))
    (hsel : querySelectorAll isTridion (.element t a cs) = [[]])
    (hbody : ¬ p <+: page.body)
    (hov : removeFirstByClass "tridion__overlay" cs = none)
    (hstates : ∀ s ∈ states,
      s ∈ ["tridion__overlay--sending", "tridion__overlay--active", "tridion__overlay--copied"]) :
    ∃ as a',
      nodeAt p (displayAllBtns restyle fixed parseFragment page).root
        = some (.element t as (cs ++ [buildOverlay parseFragment (.element t as cs)])) ∧
      (∀ overlay : Node, overlay.hasClass "tridion__overlay" = true →
        (prepareData (markElement states (.element t as (cs ++ [overlay])))).map Prepared.data
          = some (outerHTML (.element t a' cs))) ∧
      Node.element t a' cs
        = removeStateClasses (markElement states
            (if fixed p then .element t a cs else setPositionRelative restyle (.element t a cs))) ∧
      (Node.element t a' cs).classTokens
        = (Node.element t a cs).classTokens.filter (fun x =>
            x ∉ ["tridion__overlay--sending", "tridion__overlay--active",
              "tridion__overlay--copied"]) ∧
      (∀ name, name ≠ "class" → name ≠ "style" → a'.lookup name = a.lookup name) ∧
      a'.lookup "style" =
        if fixed p then a.lookup "style"
        else some (match a.lookup "style" with
          | none => "position: relative;"
          | some old => restyle old) := by
  -- the element with the inline position set
  obtain ⟨as, hstyled, hclass, hother, hstyle⟩ : ∃ as,
      (if fixed p then Node.element t a cs else setPositionRelative restyle (.element t a cs))
        = .element t as cs ∧
      as.lookup "class" = a.lookup "class" ∧
      (∀ name, name ≠ "style" → as.lookup name = a.lookup name) ∧
      as.lookup "style" =
        if fixed p then a.lookup "style"
        else some (match a.lookup "style" with
          | none => "position: relative;"
          | some old => restyle old) := by
    by_cases hf : fixed p = true
    · exact ⟨a, by simp [hf], rfl, fun _ _ => rfl, by simp [hf]⟩
    · refine ⟨setAttr "style"
          (match a.lookup "style" with
            | none => "position: relative;"
            | some old => restyle old) a,
        by simp only [hf]; rw [setPositionRelative_element]; simp, ?_, ?_, ?_⟩
      · exact lookup_setAttr_ne _ _ _ (by decide) a
      · intro name hname
        exact lookup_setAttr_ne _ _ _ hname a
      · simp only [hf]
        rw [lookup_setAttr_self]
        simp
  have hdec := displayAllBtns_nodeAt restyle fixed parseFragment page p _ hp hsel hbody
  rw [hstyled] at hdec
  -- the state classes on the decorated element
  have hmark := markElement_attrsOnly states t as
  have hclear := removeStateClasses_attrsOnly t (markElement states (.element t as [])).attrs
  refine ⟨as, (removeStateClasses
    (.element t (markElement states (.element t as [])).attrs [])).attrs, hdec, ?_, ?_, ?_, ?_, ?_⟩
  · intro overlay hcls
    rw [hmark]
    simp only [prepareData, selectors]
    rw [removeFirstByClass_append "tridion__overlay" _ hcls cs hov]
    simp only [Option.map_some']
    rw [hclear cs]
  · rw [hstyled, hmark cs, hclear cs]
  · rw [← hclear cs, ← hmark cs, classTokens_removeStateClasses,
      classTokens_markElement states (stateClasses_valid states hstates),
      filter_foldl_classListAdd _ states (by
        intro s hs
        have := hstates s hs
        simp only [decide_eq_false_iff_not, not_not]
        exact this)]
    simp only [Node.classTokens, Node.getAttribute, Node.attrs, hclass]
  · intro name hc hs
    have h1 := getAttribute_removeStateClasses name hc (markElement states (.element t as cs))
    rw [getAttribute_markElement name hc, hmark cs, hclear cs] at h1
    exact h1.trans (hother name hs)
  · have h1 := getAttribute_removeStateClasses "style" (by decide)
      (markElement states (.element t as cs))
    rw [getAttribute_markElement "style" (by decide), hmark cs, hclear cs] at h1
    exact h1.trans hstyle

/-- Witness of C5 as amended: the element of `samplePage` with the sending
class added. -/
theorem prepareData_after_decoration_witness :
    nodeAt [0] samplePage.root
      = some (.element "div" [("data-tridion", "1")] [.text "hello"]) ∧
    querySelectorAll isTridion (.element "div" [("data-tridion", "1")] [.text "hello"]) = [[]] ∧
    ¬ [0] <+: samplePage.body ∧
    removeFirstByClass "tridion__overlay" [.text "hello"] = none ∧
    ∃ as a',
      nodeAt [0] (displayAllBtns id (fun _ => false) (fun s => [.text s]) samplePage).root
        = some (.element "div" as
            ([.text "hello"] ++ [buildOverlay (fun s => [.text s])
              (.element "div" as [.text "hello"])])) ∧
      (∀ overlay : Node, overlay.hasClass "tridion__overlay" = true →
        (prepareData (markElement ["tridion__overlay--sending"]
            (.element "div" as ([.text "hello"] ++ [overlay])))).map Prepared.data
          = some (outerHTML (.element "div" a' [.text "hello"]))) ∧
      a'.lookup "style" = some "position: relative;" := by
  refine ⟨rfl, by decide, by decide, rfl, ?_⟩
  obtain ⟨as, a', h1, h2, _, _, _, h6⟩ :=
    prepareData_after_decoration id (fun _ => false) (fun s => [.text s]) samplePage [0] "div"
      [("data-tridion", "1")] [.text "hello"] ["tridion__overlay--sending"] rfl (by decide)
      (by decide) rfl (by simp)
  exact ⟨as, a', h1, h2, h6.trans (by decide)⟩

/-! ## The loop of the timer -/

/-- What the done branch leaves of the progress record: the counters are reset
when the loader is there, and nothing is changed when it is not. -/
theorem displayCounterDone_progress (s : State) :
    (displayCounterDone s).state.progress =
      if s.progress.loader.isSome then { s.progress with iteration := 0, loaded := 0 }
      else s.progress := by
  unfold displayCounterDone
  cases h : s.progress.loader <;> simp [setStyleWidth, h]

/-- What the done branch leaves of the nodes: the width of the loader. -/
theorem displayCounterDone_dom (s : State) (j : Nat) :
    (displayCounterDone s).state.dom j =
      if s.progress.loader = some j then { s.dom j with styleWidth := "100%" } else s.dom j := by
  unfold displayCounterDone
  cases h : s.progress.loader with
  | none => simp [setStyleWidth]
  | some l =>
    by_cases hj : j = l
    · subst hj; simp [setStyleWidth]
    · have : ¬ l = j := fun e => hj e.symm
      simp [setStyleWidth, hj, this]

theorem displayCounterDone_threw (s : State) :
    (displayCounterDone s).threw = !s.progress.loader.isSome := by
  unfold displayCounterDone
  cases h : s.progress.loader <;> simp [setStyleWidth]

theorem displayCounterTick_threw (r : ℚ) (s : State) :
    (displayCounterTick r s).threw = !(s.progress.loader.isSome && s.progress.counter.isSome) := by
  unfold displayCounterTick
  cases hl : s.progress.loader <;> cases hc : s.progress.counter <;>
    split <;> simp [setStyleWidth, setTextContent, hl, hc]

/-- A call of `displayCounter` leaves the flag and the three references of the
progress record as they are. -/
theorem displayCounter_flag (done : Bool) (r : ℚ) (s : State) :
    (displayCounter done r s).state.progress.status = s.progress.status ∧
    (displayCounter done r s).state.progress.overlay = s.progress.overlay ∧
    (displayCounter done r s).state.progress.loader = s.progress.loader ∧
    (displayCounter done r s).state.progress.counter = s.progress.counter := by
  have hd := displayCounterDone_progress s
  have hdone : (displayCounterDone s).state.progress.status = s.progress.status ∧
      (displayCounterDone s).state.progress.overlay = s.progress.overlay ∧
      (displayCounterDone s).state.progress.loader = s.progress.loader ∧
      (displayCounterDone s).state.progress.counter = s.progress.counter := by
    rw [hd]; split <;> exact ⟨rfl, rfl, rfl, rfl⟩
  have htick : ∀ t : State,
      (displayCounterTick r t).state.progress.status = t.progress.status ∧
      (displayCounterTick r t).state.progress.overlay = t.progress.overlay ∧
      (displayCounterTick r t).state.progress.loader = t.progress.loader ∧
      (displayCounterTick r t).state.progress.counter = t.progress.counter := by
    intro t
    rw [displayCounterTick_progress]; split <;> exact ⟨rfl, rfl, rfl, rfl⟩
  cases done with
  | true => simpa [displayCounter] using hdone
  | false =>
    simp only [displayCounter, Bool.not_false, if_true]
    by_cases h : s.progress.iteration > 400
    · simp only [h, if_true]
      unfold Outcome.andThen
      split
      · exact hdone
      · obtain ⟨a, b, c, d⟩ := htick (displayCounterDone s).state
        exact ⟨a.trans hdone.1, b.trans hdone.2.1, c.trans hdone.2.2.1, d.trans hdone.2.2.2⟩
    · simp only [h, if_false, andThen_ok]
      exact htick s

/-- With the loader and the counter there, a non-done `displayCounter` returns
normally. -/
theorem displayCounter_returns (r : ℚ) (s : State) (hl : s.progress.loader.isSome = true)
    (hc : s.progress.counter.isSome = true) : (displayCounter false r s).threw = false := by
  simp only [displayCounter, Bool.not_false, if_true]
  by_cases h : s.progress.iteration > 400
  · simp only [h, if_true]
    have h1 := displayCounterDone_threw s
    rw [hl] at h1
    have hp := displayCounterDone_progress s
    unfold Outcome.andThen
    rw [h1]
    simp only [Bool.not_true, Bool.false_eq_true, if_false]
    rw [displayCounterTick_threw, hp, hl]
    simp [hl, hc]
  · simp only [h, if_false, andThen_ok]
    rw [displayCounterTick_threw]
    simp [hl, hc]

/-- A tick of the timer on a state in progress, with loader and counter there:
the timeout is armed again and the flag is still set. -/
theorem timer_tick_alive (x : ℚ) (s : State) (hst : s.progress.status = true)
    (hl : s.progress.loader.isSome = true) (hc : s.progress.counter.isSome = true) :
    (timer (some fun done => displayCounter done x) s).scheduled = [200] ∧
    (timer (some fun done => displayCounter done x) s).threw = false ∧
    (timer (some fun done => displayCounter done x) s).state.progress.status = true ∧
    (timer (some fun done => displayCounter done x) s).state.progress.loader.isSome = true ∧
    (timer (some fun done => displayCounter done x) s).state.progress.counter.isSome = true := by
  have hret := displayCounter_returns x
    { s with progress := { s.progress with iteration := s.progress.iteration + 1 } } hl hc
  have hflag := displayCounter_flag false x
    { s with progress := { s.progress with iteration := s.progress.iteration + 1 } }
  have hstate := timer_state_of_status (fun done => displayCounter done x) s hst
  refine ⟨?_, ?_, ?_, ?_, ?_⟩
  · unfold timer
    rw [if_pos hst]
    simp only [hret]
    rfl
  · unfold timer
    rw [if_pos hst]
    simp only [hret]
    rfl
  · rw [hstate, hflag.1]; exact hst
  · rw [hstate, hflag.2.2.1]; exact hl
  · rw [hstate, hflag.2.2.2]; exact hc

/-- However many ticks have run, the flag is still set. -/
theorem runTimer_alive (rs : List ℚ) : ∀ s : State, s.progress.status = true →
    s.progress.loader.isSome = true → s.progress.counter.isSome = true →
    (runTimer rs s).progress.status = true ∧ (runTimer rs s).progress.loader.isSome = true ∧
      (runTimer rs s).progress.counter.isSome = true := by
  induction rs with
  | nil => intro s hst hl hc; exact ⟨hst, hl, hc⟩
  | cons x xs ih =>
    intro s hst hl hc
    obtain ⟨h1, _, h3, h4, h5⟩ := timer_tick_alive x s hst hl hc
    unfold runTimer
    simp only [h1]
    exact ih _ h3 h4 h5

/-- C11 at the failing input: a tick of the timer at iteration 400, with no
response from the server. The tick counts 401, the done branch runs and resets
the count to 0, but `progress.status` is still true and the timeout is armed
again; and from `startOverlayTimer` on, after any number of ticks the flag is
still set and the next tick arms the timeout again: the loop has no cap. -/
theorem timer_above_cap_keeps_running :
    (timer (some fun done => displayCounter done (1 / 2)) (trackedState 400 0)).threw = false ∧
    (timer (some fun done => displayCounter done (1 / 2))
      (trackedState 400 0)).state.progress.iteration = 0 ∧
    (timer (some fun done => displayCounter done (1 / 2))
      (trackedState 400 0)).state.progress.status = true ∧
    (timer (some fun done => displayCounter done (1 / 2)) (trackedState 400 0)).scheduled = [200] ∧
    (∀ (r : ℚ) (rs : List ℚ) (x : ℚ),
      (runTimer rs (startOverlayTimer r (trackedState 0 0)).state).progress.status = true ∧
      (timer (some fun done => displayCounter done x)
        (runTimer rs (startOverlayTimer r (trackedState 0 0)).state)).scheduled = [200]) := by
  obtain ⟨h1, h2, h3, _, _⟩ := timer_tick_alive (1 / 2) (trackedState 400 0) rfl rfl rfl
  refine ⟨h2, ?_, h3, h1, ?_⟩
  · rw [timer_state_of_status _ _ rfl]
    have hd : displayCounter false (1 / 2)
        { trackedState 400 0 with
          progress := { (trackedState 400 0).progress with
            iteration := (trackedState 400 0).progress.iteration + 1 } }
        = (displayCounterDone
            { trackedState 400 0 with
              progress := { (trackedState 400 0).progress with
                iteration := (trackedState 400 0).progress.iteration + 1 } }).andThen
          (displayCounterTick (1 / 2)) := by
      simp [displayCounter, trackedState]
    rw [hd]
    simp only [displayCounterDone, trackedState, setStyleWidth, andThen_ok,
      displayCounterTick_progress]
    rfl
  · intro r rs x
    have h0 : (startOverlayTimer r (trackedState 0 0)).state.progress.status = true ∧
        (startOverlayTimer r (trackedState 0 0)).state.progress.loader.isSome = true ∧
        (startOverlayTimer r (trackedState 0 0)).state.progress.counter.isSome = true := by
      obtain ⟨_, _, a, b, c⟩ := timer_tick_alive r
        { trackedState 0 0 with progress := { (trackedState 0 0).progress with status := true } }
        rfl rfl rfl
      exact ⟨a, b, c⟩
    obtain ⟨a, b, c⟩ := runTimer_alive rs _ h0.1 h0.2.1 h0.2.2
    exact ⟨a, (timer_tick_alive x _ a b c).1⟩

/-- Counterexample to C12: the flag is set and the callback is the function
`displayCounter`, but the loader is `null` as the constructor left it; the
callback is called once and throws, and no timeout is armed. -/
theorem timer_throwing_callback :
    unsentState.progress.status = true ∧
    (timer (some fun done => displayCounter done (1 / 2)) unsentState).calls = [false] ∧
    (timer (some fun done => displayCounter done (1 / 2)) unsentState).threw = true ∧
    (timer (some fun done => displayCounter done (1 / 2)) unsentState).scheduled = [] := by
  have h : (displayCounter false (1 / 2)
      { unsentState with progress := { unsentState.progress with
        iteration := unsentState.progress.iteration + 1 } }).threw = true := by
    simp [displayCounter, displayCounterTick, unsentState, setStyleWidth]
  refine ⟨rfl, ?_, ?_, ?_⟩ <;>
  · unfold timer
    rw [if_pos (show unsentState.progress.status = true from rfl)]
    simp only [h]
    rfl

/-- C12 as amended: one call `timer(callback)` with a function. With the flag
set it counts the iteration, calls the callback once without `done` on the
state so reached, and arms one timeout of 200 ms if the callback returns; if
the callback throws, nothing is armed. With the flag clear it calls the
callback once with `done = true` on the unchanged state and arms nothing. -/
theorem timer_step (f : Bool → State → Outcome) (s : State) :
    (s.progress.status = true →
      (timer (some f) s).state
        = (f false { s with progress :=
            { s.progress with iteration := s.progress.iteration + 1 } }).state ∧
      (timer (some f) s).calls = [false] ∧
      (timer (some f) s).threw
        = (f false { s with progress :=
            { s.progress with iteration := s.progress.iteration + 1 } }).threw ∧
      (timer (some f) s).scheduled
        = if (f false { s with progress :=
            { s.progress with iteration := s.progress.iteration + 1 } }).threw then []
          else [200]) ∧
    (s.progress.status = false →
      (timer (some f) s).state = (f true s).state ∧
      (timer (some f) s).calls = [true] ∧
      (timer (some f) s).threw = (f true s).threw ∧
      (timer (some f) s).scheduled = []) := by
  constructor
  · intro h
    unfold timer
    rw [if_pos h]
    dsimp only
    split <;> rename_i ht <;> simp [ht]
  · intro h
    unfold timer
    simp [h]

/-- Witness of C12 as amended: a tick at iteration 10 with all references
set. -/
theorem timer_step_witness :
    (trackedState 10 3).progress.status = true ∧
    (timer (some fun done => displayCounter done (1 / 2)) (trackedState 10 3)).calls = [false] ∧
    (timer (some fun done => displayCounter done (1 / 2)) (trackedState 10 3)).state
      = (displayCounter false (1 / 2)
          { trackedState 10 3 with progress :=
            { (trackedState 10 3).progress with
              iteration := (trackedState 10 3).progress.iteration + 1 } }).state :=
  ⟨rfl, ((timer_step (fun done => displayCounter done (1 / 2)) (trackedState 10 3)).1 rfl).2.1,
    ((timer_step (fun done => displayCounter done (1 / 2)) (trackedState 10 3)).1 rfl).1⟩

/-- The writes of `determineResults` up to the text of the counter. -/
theorem determineResults_counter_text (fields : List (String × JSValue)) (s : State) (c : Nat)
    (hc : s.progress.counter = some c) :
    (determineResults (.object fields) s).state.progress.counter = some c ∧
    ((determineResults (.object fields) s).state.dom c).textContent
      = if truthy (fields.lookup "success") then "SUCCESS" else "FAILED" := by
  unfold determineResults
  simp only [getSuccess]
  split <;> rename_i ht <;>
    cases ho : s.progress.overlay with
    | none => simp [setTextContent, updateElementState, hc, ho, messages]
    | some o =>
      by_cases hoc : c = o <;>
        simp [setTextContent, updateElementState, hc, ho, hoc, messages]

/-- C13: the done path `displayCounter(true)` leaves the text and the class
list of every node, the width of every node but the loader, and the flag and
the references of the progress record as they are; with the loader there it
sets the width of the loader to `100%` and `iteration` and `loaded` to 0. So
after `determineResults` on a response object and the final tick of the timer
the counter still shows the label `SUCCESS` or `FAILED`. -/
theorem displayCounter_done_frame (s : State) (r : ℚ) :
    (∀ j, ((displayCounter true r s).state.dom j).textContent = (s.dom j).textContent ∧
      ((displayCounter true r s).state.dom j).classList = (s.dom j).classList) ∧
    (∀ j, s.progress.loader ≠ some j →
      ((displayCounter true r s).state.dom j).styleWidth = (s.dom j).styleWidth) ∧
    (displayCounter true r s).state.progress.status = s.progress.status ∧
    (displayCounter true r s).state.progress.overlay = s.progress.overlay ∧
    (displayCounter true r s).state.progress.loader = s.progress.loader ∧
    (displayCounter true r s).state.progress.counter = s.progress.counter ∧
    (displayCounter true r s).state.progress.overlayState = s.progress.overlayState ∧
    (∀ l, s.progress.loader = some l →
      (displayCounter true r s).threw = false ∧
      ((displayCounter true r s).state.dom l).styleWidth = "100%" ∧
      (displayCounter true r s).state.progress.iteration = 0 ∧
      (displayCounter true r s).state.progress.loaded = 0) ∧
    (∀ (fields : List (String × JSValue)) (c : Nat), s.progress.counter = some c →
      (timer (some fun done => displayCounter done r)
        (determineResults (.object fields) s).state).calls = [true] ∧
      ((timer (some fun done => displayCounter done r)
        (determineResults (.object fields) s).state).state.dom c).textContent
        = if truthy (fields.lookup "success") then "SUCCESS" else "FAILED") := by
  have hdc : ∀ t : State, displayCounter true r t = displayCounterDone t := fun t => by
    simp [displayCounter]
  have hflag := displayCounter_flag true r s
  refine ⟨?_, ?_, hflag.1, hflag.2.1, hflag.2.2.1, hflag.2.2.2, ?_, ?_, ?_⟩
  · intro j
    rw [hdc, displayCounterDone_dom]
    split <;> exact ⟨rfl, rfl⟩
  · intro j hj
    rw [hdc, displayCounterDone_dom, if_neg hj]
  · rw [hdc, displayCounterDone_progress]
    split <;> rfl
  · intro l hl
    rw [hdc]
    refine ⟨?_, ?_, ?_, ?_⟩
    · rw [displayCounterDone_threw, hl]; rfl
    · rw [displayCounterDone_dom, if_pos hl]
    · rw [displayCounterDone_progress, hl]; rfl
    · rw [displayCounterDone_progress, hl]; rfl
  · intro fields c hc
    have hst := determineResults_status fields s
    obtain ⟨_, htext⟩ := determineResults_counter_text fields s c hc
    have ht : timer (some fun done => displayCounter done r)
        (determineResults (.object fields) s).state
        = { state := (displayCounterDone (determineResults (.object fields) s).state).state,
            calls := [true],
            threw := (displayCounterDone (determineResults (.object fields) s).state).threw } := by
      unfold timer
      simp [hst, hdc]
    rw [ht]
    refine ⟨rfl, ?_⟩
    show ((displayCounterDone (determineResults (.object fields) s).state).state.dom c).textContent
      = _
    rw [displayCounterDone_dom]
    split <;> exact htext

/-- Witness of C13: a failed response in a state that tracks its nodes. -/
theorem displayCounter_done_frame_witness :
    (trackedState 10 3).progress.loader = some 1 ∧
    (trackedState 10 3).progress.counter = some 2 ∧
    ((displayCounter true 0 (trackedState 10 3)).state.dom 1).styleWidth = "100%" ∧
    ((timer (some fun done => displayCounter done 0)
      (determineResults (.object [("success", .bool false)]) (trackedState 10 3)).state).state.dom
        2).textContent = "FAILED" :=
  ⟨rfl, rfl,
    ((displayCounter_done_frame (trackedState 10 3) 0).2.2.2.2.2.2.2.1 1 rfl).2.1,
    (((displayCounter_done_frame (trackedState 10 3) 0).2.2.2.2.2.2.2.2
      [("success", .bool false)] 2 rfl).2).trans (by decide)⟩

end Tridion
